import Mathlib

/-!
Verification of the Relics/Bones protocol engine (`bones-ord`).

This development shallowly embeds the protocol-decoding and state-transition
core of the repository: the Keepsake OP_RETURN codec (`src/relics/keepsake.rs`
with its `message.rs` and `tag.rs` submodules), the mint/pool machinery of
`src/index/updater/relics_updater.rs` and `src/index/relics_entry.rs`, the
chest lifecycle, and the relic-name codec of `src/relics/relic.rs`.

Machine integers (`u128`, `u64`, `u32`, `u16`, `u8`) are embedded as `Nat`
together with explicit bounds; every `checked_*` operation of the source is
mirrored by an explicit bound test.  Fallible operations return `Option` or
`Except`.  A few leaf modules of the repository are not part of the source
tree (`varint.rs`, `flag.rs`, `pool.rs`, `transfer.rs`, `relics_balance.rs`,
and the `unmintable`/`multi_mintable` family of `RelicEntry`): definitions
for those carry a doc comment starting `Modelled from the spec:` and follow
the specification text.
-/

namespace Bones

/-- `u128::MAX`. -/
def U128MAX : Nat := 2 ^ 128 - 1

/-- `u64::MAX`. -/
def U64MAX : Nat := 2 ^ 64 - 1

/-- `u32::MAX`. -/
def U32MAX : Nat := 2 ^ 32 - 1

/-- `u16::MAX`. -/
def U16MAX : Nat := 2 ^ 16 - 1

/-- `u8::MAX`. -/
def U8MAX : Nat := 2 ^ 8 - 1

/-- `u128::checked_add`. -/
def checkedAdd128 (a b : Nat) : Option Nat :=
  if a + b ≤ U128MAX then some (a + b) else none

/-- `u128::checked_mul`. -/
def checkedMul128 (a b : Nat) : Option Nat :=
  if a * b ≤ U128MAX then some (a * b) else none

/-- `u128::checked_sub` (also used for the smaller widths: the value range
checks of narrowing conversions are written out at each use site). -/
def checkedSub (a b : Nat) : Option Nat :=
  if b ≤ a then some (a - b) else none

/-- `u64::try_from(u128)`. -/
def tryIntoU64 (a : Nat) : Option Nat :=
  if a ≤ U64MAX then some a else none

/-- `u32::try_from(u128)`. -/
def tryIntoU32 (a : Nat) : Option Nat :=
  if a ≤ U32MAX then some a else none

/-- `u16::try_from(u128)`. -/
def tryIntoU16 (a : Nat) : Option Nat :=
  if a ≤ U16MAX then some a else none

/-- `u8::try_from(u128)`. -/
def tryIntoU8 (a : Nat) : Option Nat :=
  if a ≤ U8MAX then some a else none

/-- `char::from_u32`: valid Unicode scalar values. -/
def isValidCharNat (n : Nat) : Prop := n < 0xD800 ∨ (0xE000 ≤ n ∧ n < 0x110000)

instance (n : Nat) : Decidable (isValidCharNat n) := by
  unfold isValidCharNat; infer_instance

/-- `char::from_u32` as an `Option`, mirrored on `Nat` codepoints. -/
def charFromU32 (n : Nat) : Option Nat :=
  if isValidCharNat n then some n else none

namespace varint

/-- Decode error of the varint codec (§4.1 of the spec). -/
inductive Error where
  | unterminated
  | overflow
  | overlong
  deriving DecidableEq, Repr

/-- Modelled from the spec: `src/relics/varint.rs` is not in the source tree.
§6.2: little-endian 7-bit groups with MSB continuation, values limited to
128 bits.  The decoder walks the buffer byte by byte carrying the group
index `i` and the accumulated value `n`; a 20th group is `Overlong`, a
19th group contributing bits beyond 128 is `Overflow`, running out of buffer
before a terminator (MSB clear) is `Unterminated`.  Returns the decoded
value together with the remaining buffer. -/
def decodeGo : List Nat → Nat → Nat → Except Error (Nat × List Nat)
  | [], _, _ => .error .unterminated
  | b :: rest, i, n =>
    if 18 < i then .error .overlong
    else
      let value := b % 128
      if i = 18 ∧ 4 ≤ value then .error .overflow
      else
        let n' := n + value * 128 ^ i
        if b % 256 < 128 then .ok (n', rest)
        else decodeGo rest (i + 1) n'

/-- Modelled from the spec: decode one varint from the front of the buffer,
returning the value and the number of bytes consumed. -/
def decode (buf : List Nat) : Except Error (Nat × Nat) :=
  (decodeGo buf 0 0).map fun (n, rest) => (n, buf.length - rest.length)

/-- Fuel-indexed worker for `encode` (structural recursion so that the
kernel can evaluate it; the fuel never runs out when it starts at `n`). -/
def encodeGoF : Nat → Nat → List Nat
  | 0, n => [n]
  | fuel + 1, n =>
    if n < 128 then [n] else (n % 128 + 128) :: encodeGoF fuel (n / 128)

/-- Modelled from the spec: `varint::encode`, low 7-bit group first, MSB set
on every group except the last. -/
def encode (n : Nat) : List Nat := encodeGoF n n

theorem encodeGoF_fuel_irrel :
    ∀ (fuel₁ : Nat) (n fuel₂ : Nat), n ≤ fuel₁ → n ≤ fuel₂ →
      encodeGoF fuel₁ n = encodeGoF fuel₂ n := by
  intro fuel₁
  induction fuel₁ with
  | zero =>
    intro n fuel₂ h1 _
    interval_cases n
    cases fuel₂ <;> simp [encodeGoF]
  | succ f ih =>
    intro n fuel₂ h1 h2
    by_cases hn : n < 128
    · cases fuel₂ with
      | zero =>
        have : n = 0 := by omega
        subst this
        simp [encodeGoF]
      | succ f2 => simp [encodeGoF, hn]
    · have hn1 : 1 ≤ n := by omega
      cases fuel₂ with
      | zero => omega
      | succ f2 =>
        simp only [encodeGoF, hn, if_false]
        have hdiv : n / 128 ≤ f := by
          have := Nat.div_lt_self (by omega : 0 < n) (by omega : 1 < 128)
          omega
        have hdiv2 : n / 128 ≤ f2 := by
          have := Nat.div_lt_self (by omega : 0 < n) (by omega : 1 < 128)
          omega
        rw [ih (n / 128) f2 hdiv hdiv2]

/-- Modelled from the spec: `varint::encode_to_vec` for a whole sequence of
integers (the payload is their concatenation). -/
def encodeAll (xs : List Nat) : List Nat := (xs.map encode).flatten

theorem decodeGo_cons (b : Nat) (rest : List Nat) (i n : Nat) :
    decodeGo (b :: rest) i n =
      if 18 < i then .error .overlong
      else
        if i = 18 ∧ 4 ≤ b % 128 then .error .overflow
        else
          if b % 256 < 128 then .ok (n + b % 128 * 128 ^ i, rest)
          else decodeGo rest (i + 1) (n + b % 128 * 128 ^ i) := rfl

theorem encode_last_lt (n : Nat) (h : n < 128) : encode n = [n] := by
  unfold encode
  cases n with
  | zero => simp [encodeGoF]
  | succ m => simp [encodeGoF, h]

theorem encode_ge (n : Nat) (h : 128 ≤ n) :
    encode n = (n % 128 + 128) :: encode (n / 128) := by
  unfold encode
  cases n with
  | zero => omega
  | succ m =>
    simp only [encodeGoF, Nat.not_lt_of_le h, if_false]
    congr 1
    exact encodeGoF_fuel_irrel m ((m + 1) / 128) ((m + 1) / 128)
      (by
        have := Nat.div_lt_self (by omega : 0 < m + 1) (by omega : 1 < 128)
        omega)
      le_rfl

theorem encode_ne_nil (n : Nat) : encode n ≠ [] := by
  by_cases h : n < 128
  · rw [encode_last_lt n h]; simp
  · rw [encode_ge n (by omega)]; simp

/-- Key round-trip lemma for the decoder loop: decoding the encoding of `n`
(followed by any tail) from group index `i` with accumulator `acc` yields
`acc + n * 128 ^ i`, provided `n` fits into the remaining groups. -/
theorem decodeGo_encode (n : Nat) : ∀ (i acc : Nat) (rest : List Nat),
    i ≤ 18 → n < 2 ^ (128 - 7 * i) →
    decodeGo (encode n ++ rest) i acc = .ok (acc + n * 128 ^ i, rest) := by
  induction n using Nat.strong_induction_on with
  | _ n ih =>
    intro i acc rest hi hn
    by_cases h : n < 128
    · rw [encode_last_lt n h]
      have h18 : ¬ 18 < i := by omega
      have hmod : n % 128 = n := Nat.mod_eq_of_lt h
      have hov : ¬ (i = 18 ∧ 4 ≤ n % 128) := by
        rintro ⟨rfl, hge⟩
        rw [hmod] at hge
        simp only [show (128 : Nat) - 7 * 18 = 2 from rfl] at hn
        omega
      have hterm : n % 256 < 128 := by omega
      simp only [List.cons_append, List.nil_append]
      rw [decodeGo_cons]
      rw [if_neg h18, if_neg hov, if_pos hterm, hmod]
    · rw [encode_ge n (by omega)]
      have hi' : i ≤ 17 := by
        by_contra hcon
        have : i = 18 := by omega
        subst this
        simp only [show (128 : Nat) - 7 * 18 = 2 from rfl] at hn
        omega
      have h18 : ¬ 18 < i := by omega
      have hmod : n % 128 < 128 := Nat.mod_lt n (by omega)
      have hb : (n % 128 + 128) % 128 = n % 128 := by omega
      have hov : ¬ (i = 18 ∧ 4 ≤ (n % 128 + 128) % 128) := by
        rintro ⟨rfl, _⟩; omega
      have hterm : ¬ (n % 128 + 128) % 256 < 128 := by omega
      simp only [List.cons_append]
      rw [decodeGo_cons]
      rw [if_neg h18, if_neg hov, if_neg hterm, hb]
      have hpow : (2 : Nat) ^ (128 - 7 * (i + 1)) * 128 = 2 ^ (128 - 7 * i) := by
        have h128 : (128 : Nat) = 2 ^ 7 := rfl
        rw [h128, ← pow_add]
        congr 1
        omega
      have hbound : n / 128 < 2 ^ (128 - 7 * (i + 1)) :=
        (Nat.div_lt_iff_lt_mul (by omega)).mpr (by rw [hpow]; exact hn)
      have hrec := ih (n / 128) (Nat.div_lt_self (by omega) (by omega))
        (i + 1) (acc + n % 128 * 128 ^ i) rest (by omega) hbound
      rw [hrec]
      have hsplit : acc + n % 128 * 128 ^ i + n / 128 * 128 ^ (i + 1)
          = acc + n * 128 ^ i := by
        have hdm : 128 * (n / 128) + n % 128 = n := Nat.div_add_mod n 128
        calc acc + n % 128 * 128 ^ i + n / 128 * 128 ^ (i + 1)
            = acc + (128 * (n / 128) + n % 128) * 128 ^ i := by ring
          _ = acc + n * 128 ^ i := by rw [hdm]
      rw [hsplit]

/-- Varint round trip: decoding the encoding of `x < 2^128` consumes exactly
its bytes and yields `x` (spec §8). -/
theorem decode_encode (n : Nat) (hn : n ≤ U128MAX) (rest : List Nat) :
    decodeGo (encode n ++ rest) 0 0 = .ok (n, rest) := by
  have := decodeGo_encode n 0 0 rest (by omega) (by unfold U128MAX at hn; omega)
  simpa using this

theorem decodeGo_rest_length : ∀ (l : List Nat) (i acc n : Nat) (rest : List Nat),
    decodeGo l i acc = .ok (n, rest) → rest.length < l.length := by
  intro l
  induction l with
  | nil => intro i acc n rest h; simp [decodeGo] at h
  | cons b tl ih =>
    intro i acc n rest h
    rw [decodeGo_cons] at h
    split at h
    · simp at h
    · split at h
      · simp at h
      · split at h
        · simp only [Except.ok.injEq, Prod.mk.injEq] at h
          rcases h with ⟨h1, h2⟩
          subst h2
          simp
        · have := ih (i + 1) (acc + b % 128 * 128 ^ i) n rest h
          simp
          omega

end varint

/-- Fuel-indexed worker for `Keepsake::integers` (structural recursion so
that the kernel can evaluate it; each varint consumes at least one byte,
so fuel equal to the buffer length suffices). -/
def integersGoF : Nat → List Nat → Except varint.Error (List Nat)
  | _, [] => .ok []
  | 0, _ :: _ => .error .unterminated
  | fuel + 1, b :: rest =>
    match varint.decodeGo (b :: rest) 0 0 with
    | .error e => .error e
    | .ok (n, remaining) => (integersGoF fuel remaining).map fun ns => n :: ns

/-- `Keepsake::integers` (src/relics/keepsake.rs): decode the payload bytes
into the sequence of varint values. -/
def integers (payload : List Nat) : Except varint.Error (List Nat) :=
  integersGoF payload.length payload

theorem integersGoF_fuel_irrel :
    ∀ (fuel₁ : Nat) (l : List Nat) (fuel₂ : Nat),
      l.length ≤ fuel₁ → l.length ≤ fuel₂ →
      integersGoF fuel₁ l = integersGoF fuel₂ l := by
  intro fuel₁
  induction fuel₁ with
  | zero =>
    intro l fuel₂ h1 _
    have : l = [] := List.length_eq_zero.mp (by omega)
    subst this
    cases fuel₂ <;> simp [integersGoF]
  | succ f ih =>
    intro l fuel₂ h1 h2
    cases l with
    | nil => cases fuel₂ <;> simp [integersGoF]
    | cons b rest =>
      cases fuel₂ with
      | zero => simp at h2
      | succ f2 =>
        simp only [integersGoF]
        cases hdec : varint.decodeGo (b :: rest) 0 0 with
        | error e => rfl
        | ok v =>
          obtain ⟨n, remaining⟩ := v
          have hlen := varint.decodeGo_rest_length (b :: rest) 0 0 n remaining hdec
          simp at hlen h1 h2
          dsimp only
          rw [ih remaining f2 (by omega) (by omega)]

theorem integers_cons (b : Nat) (rest : List Nat) :
    integers (b :: rest) =
      match varint.decodeGo (b :: rest) 0 0 with
      | .error e => .error e
      | .ok (n, remaining) => (integers remaining).map fun ns => n :: ns := by
  show integersGoF (rest.length + 1) (b :: rest) = _
  simp only [integersGoF]
  cases hdec : varint.decodeGo (b :: rest) 0 0 with
  | error e => rfl
  | ok v =>
    obtain ⟨n, remaining⟩ := v
    have hlen := varint.decodeGo_rest_length (b :: rest) 0 0 n remaining hdec
    simp at hlen
    dsimp only
    rw [integersGoF_fuel_irrel rest.length remaining remaining.length
      (by omega) le_rfl]
    rfl

/-- Decoding the concatenated varint encodings of a sequence of `u128`
values recovers the sequence. -/
theorem integers_encodeAll (xs : List Nat) (h : ∀ x ∈ xs, x ≤ U128MAX) :
    integers (varint.encodeAll xs) = .ok xs := by
  induction xs with
  | nil => simp [varint.encodeAll, integers, integersGoF]
  | cons x tl ih =>
    have hx : x ≤ U128MAX := h x (by simp)
    have htl : ∀ y ∈ tl, y ≤ U128MAX := fun y hy => h y (by simp [hy])
    have hdec := varint.decode_encode x hx (varint.encodeAll tl)
    have hjoin : varint.encodeAll (x :: tl)
        = varint.encode x ++ varint.encodeAll tl := by
      simp [varint.encodeAll]
    rcases hne : varint.encode x with _ | ⟨b, ebs⟩
    · exact absurd hne (varint.encode_ne_nil x)
    · rw [hjoin, hne]
      simp only [List.cons_append]
      rw [integers_cons]
      rw [hne] at hdec
      simp only [List.cons_append] at hdec
      rw [hdec]
      dsimp only
      rw [ih htl]
      rfl

/-! ### Identifiers (src/relics/relic_id.rs) -/

/-- `RelicId { block: u64, tx: u32 }`. -/
structure RelicId where
  block : Nat
  tx : Nat
  deriving DecidableEq, Repr

instance : Inhabited RelicId := ⟨⟨0, 0⟩⟩

namespace RelicId

/-- `RelicId::new`: `(0, k > 0)` is invalid. -/
def new (block tx : Nat) : Option RelicId :=
  if block = 0 ∧ 0 < tx then none else some ⟨block, tx⟩

/-- `RelicId::delta` (delta compression for sorted transfer ids). -/
def delta (self next : RelicId) : Option (Nat × Nat) :=
  match checkedSub next.block self.block with
  | none => none
  | some block =>
    if block = 0 then
      match checkedSub next.tx self.tx with
      | none => none
      | some tx => some (block, tx)
    else some (block, next.tx)

/-- `RelicId::next`: apply a decoded delta. -/
def next (self : RelicId) (block tx : Nat) : Option RelicId := do
  let db ← tryIntoU64 block
  let b ← if self.block + db ≤ U64MAX then some (self.block + db) else none
  let t ←
    if block = 0 then do
      let dt ← tryIntoU32 tx
      if self.tx + dt ≤ U32MAX then some (self.tx + dt) else none
    else tryIntoU32 tx
  RelicId.new b t

end RelicId

/-- The base token ("BONE"), `RELIC_ID` in src/relics.rs. -/
def RELIC_ID : RelicId := ⟨1, 0⟩

/-! ### Codec data model (src/relics/keepsake.rs view of the structures) -/

/-- `PriceModel` (src/relics/enshrining.rs). -/
inductive PriceModel where
  | fixed (price : Nat)
  | formula (a b c : Nat)
  deriving DecidableEq, Repr

/-- `BoostTerms` as constructed by `Keepsake::decipher`:
`rare_chance: u32`, `rare_multiplier: u16`, `ultra_rare_chance: u32`,
`ultra_rare_multiplier: u16`, all optional. -/
structure BoostTerms where
  rare_chance : Option Nat := none
  rare_multiplier : Option Nat := none
  ultra_rare_chance : Option Nat := none
  ultra_rare_multiplier : Option Nat := none
  deriving DecidableEq, Repr

/-- `MintTerms` as constructed by `Keepsake::decipher`. -/
structure MintTerms where
  amount : Option Nat := none
  block_cap : Option Nat := none
  cap : Option Nat := none
  manifest : Option RelicId := none
  max_per_tx : Option Nat := none
  max_unmints : Option Nat := none
  price : Option PriceModel := none
  seed : Option Nat := none
  swap_height : Option Nat := none
  deriving DecidableEq, Repr

/-- `Enshrining` as constructed by `Keepsake::decipher` (the `symbol` is the
Unicode scalar value of the `char`). -/
structure Enshrining where
  boost_terms : Option BoostTerms := none
  symbol : Option Nat := none
  subsidy : Option Nat := none
  mint_terms : Option MintTerms := none
  turbo : Bool := false
  deriving DecidableEq, Repr

/-- `MultiMint` (src/relics/enshrining.rs). -/
structure MultiMint where
  count : Nat
  base_limit : Nat
  relic : RelicId
  is_unmint : Bool
  deriving DecidableEq, Repr

/-- `Swap` (src/relics/swap.rs is not in the source tree; fields as used by
`Keepsake::decipher`/`encipher` and §4.2 of the spec). -/
structure Swap where
  input : Option RelicId := none
  output : Option RelicId := none
  input_amount : Option Nat := none
  output_amount : Option Nat := none
  is_exact_input : Bool := false
  deriving DecidableEq, Repr

/-- `Summoning` (src/relics/summoning.rs). -/
structure Summoning where
  treasure : Option RelicId := none
  height : Option Nat × Option Nat := (none, none)
  cap : Option Nat := none
  quota : Option Nat := none
  royalty : Option Nat := none
  gated : Bool := false
  lock : Option Nat := none
  reward : Option Nat := none
  lock_subsidy : Bool := false
  turbo : Bool := false
  deriving DecidableEq, Repr

/-- `Manifest` (src/relics/manifest.rs). -/
structure Manifest where
  left_parent : Option Nat := none
  right_parent : Option Nat := none
  deriving DecidableEq, Repr

/-- Modelled from the spec: `Transfer` (src/relics/transfer.rs is not in the
source tree).  §4.2: a transfer is `(relic id, amount, output index)`. -/
structure Transfer where
  id : RelicId
  amount : Nat
  output : Nat
  deriving DecidableEq, Repr

/-- `Keepsake` (src/relics/keepsake.rs). -/
structure Keepsake where
  transfers : List Transfer := []
  pointer : Option Nat := none
  claim : Option Nat := none
  sealing : Bool := false
  enshrining : Option Enshrining := none
  manifest : Option Manifest := none
  mint : Option RelicId := none
  multi_mint : Option MultiMint := none
  unmint : Option RelicId := none
  swap : Option Swap := none
  summoning : Option Summoning := none
  encasing : Option RelicId := none
  release : Bool := false
  deriving DecidableEq, Repr

/-- `RelicFlaw` (src/relics/flaw.rs). -/
inductive RelicFlaw where
  | enshriningAndManifest
  | enshriningAndSummoning
  | invalidEnshrining
  | invalidBaseTokenMint
  | invalidBaseTokenUnmint
  | invalidScript
  | invalidSwap
  | opcode
  | trailingIntegers
  | transferFlag
  | transferInvalidOrder
  | transferOutput
  | transferRelicId
  | truncatedField
  | unrecognizedEvenTag
  | unrecognizedFlag
  | varintFlaw
  deriving DecidableEq, Repr

/-- `RelicArtifact` (src/relics/artifact.rs is not in the source tree; a
decode result is either a valid Keepsake or a Cenotaph carrying an optional
flaw, per the glossary and `cenotaph.rs` usage in keepsake.rs). -/
inductive RelicArtifact where
  | keepsake (k : Keepsake)
  | cenotaph (flaw : Option RelicFlaw)
  deriving DecidableEq, Repr

/-! ### Flags (src/relics/keepsake/flag.rs is not in the source tree)

Modelled from the spec (§4.2 lists the flag names; the concrete bit
positions are not observable in the claims below, only that the masks are
distinct): bits are assigned in the spec's order of mention, with the
cenotaph-indicator at bit 127 as in the sibling runes protocol. -/

namespace Flag

/-- Modelled from the spec: bit positions of the flag bitmap. -/
def sealingBit : Nat := 0
def enshriningBit : Nat := 1
def mintTermsBit : Nat := 2
def boostTermsBit : Nat := 3
def swapBit : Nat := 4
def swapExactInputBit : Nat := 5
def summoningBit : Nat := 6
def gatedBit : Nat := 7
def lockSubsidyBit : Nat := 8
def releaseBit : Nat := 9
def turboBit : Nat := 10
def multiMintBit : Nat := 11
def multiUnmintBit : Nat := 12
def manifestBit : Nat := 13
def cenotaphBit : Nat := 127

/-- `Flag::mask`. -/
def mask (bit : Nat) : Nat := 2 ^ bit

/-- `Flag::take`: test the bit and clear it, returning the flag value and
the remaining bitmap. -/
def take (bit : Nat) (flags : Nat) : Bool × Nat :=
  if flags / 2 ^ bit % 2 = 1 then (true, flags - 2 ^ bit) else (false, flags)

/-- `Flag::set`. -/
def set (bit : Nat) (flags : Nat) : Nat :=
  if flags / 2 ^ bit % 2 = 1 then flags else flags + 2 ^ bit

end Flag

/-! ### Tags (src/relics/keepsake/tag.rs) -/

namespace Tag

def Body : Nat := 0
def Flags : Nat := 2
def Pointer : Nat := 4
def Claim : Nat := 6
def Seed : Nat := 10
def Amount : Nat := 12
def Cap : Nat := 14
def Price : Nat := 16
def Subsidy : Nat := 18
def SwapHeight : Nat := 22
def MaxUnmints : Nat := 24
/-- `Tag::BlockCap` is referenced by keepsake.rs but absent from the tag.rs
in the source tree, which instead lists `MaxPerBlock = 26` (as does §6.3 of
the spec); the two denote the same wire tag. -/
def BlockCap : Nat := 26
def MaxPerTx : Nat := 28
def Mint : Nat := 20
def Unmint : Nat := 70
def MultiMintCount : Nat := 72
def MultiMintBaseLimit : Nat := 74
def MultiMintRelic : Nat := 76
def SwapInput : Nat := 30
def SwapOutput : Nat := 32
def SwapInputAmount : Nat := 34
def SwapOutputAmount : Nat := 36
def Treasure : Nat := 40
def SyndicateCap : Nat := 42
def Lock : Nat := 44
def HeightStart : Nat := 46
def HeightEnd : Nat := 48
def Quota : Nat := 50
def Royalty : Nat := 52
def Reward : Nat := 54
def Syndicate : Nat := 60
def Cenotaph : Nat := 126
def Symbol : Nat := 5
def Nop : Nat := 127

/-- Modelled from the spec: keepsake.rs also reads tags `LeftParent`,
`RightParent`, `RareChance`, `RareMultiplier`, `UltraRareChance`,
`UltraRareMultiplier` and a mint-terms `Manifest` tag whose wire numbers
appear neither in the tag.rs of the source tree nor in §6.3; they are
assigned fresh numbers here (their concrete values are not observable in
any claim). -/
def LeftParent : Nat := 78
def RightParent : Nat := 80
def RareChance : Nat := 82
def RareMultiplier : Nat := 84
def UltraRareChance : Nat := 86
def UltraRareMultiplier : Nat := 88
def ManifestTag : Nat := 90

end Tag

/-! ### Field map (the `HashMap<u128, VecDeque<u128>>` of message.rs)

The hash map is embedded as an association list with pairwise-distinct
keys; map iteration order is only observed by the final even-tag check,
which is order-insensitive. -/

/-- Field map: tag to queued values. -/
abbrev Fields := List (Nat × List Nat)

namespace Fields

/-- Lookup the value queue of a tag. -/
def find (fields : Fields) (tag : Nat) : Option (List Nat) :=
  match fields with
  | [] => none
  | (t, vs) :: rest => if t = tag then some vs else find rest tag

/-- `fields.entry(tag).or_default().push_back(value)`. -/
def push (fields : Fields) (tag v : Nat) : Fields :=
  match fields with
  | [] => [(tag, [v])]
  | (t, vs) :: rest =>
    if t = tag then (t, vs ++ [v]) :: rest else (t, vs) :: push rest tag v

/-- Replace the value queue of a present tag. -/
def setQueue (fields : Fields) (tag : Nat) (vs : List Nat) : Fields :=
  match fields with
  | [] => []
  | (t, q) :: rest =>
    if t = tag then (t, vs) :: rest else (t, q) :: setQueue rest tag vs

/-- `fields.remove(&tag)`. -/
def eraseKey (fields : Fields) (tag : Nat) : Fields :=
  match fields with
  | [] => []
  | (t, q) :: rest => if t = tag then rest else (t, q) :: eraseKey rest tag

/-- `fields.keys().any(|tag| tag % 2 == 0)` — the queue of a present key is
never empty in message parsing, and `Tag::take` removes emptied keys. -/
def hasEvenKey (fields : Fields) : Bool :=
  fields.any fun (t, _) => t % 2 = 0

end Fields

/-- `Tag::take`: read the first `n` queued values of the tag, feed them to
the validator `f`; on success drain them (dropping the key when its queue
empties), on failure leave the map untouched. -/
def tagTake {α : Type} (tag : Nat) (n : Nat) (fields : Fields)
    (f : List Nat → Option α) : Option α × Fields :=
  match Fields.find fields tag with
  | none => (none, fields)
  | some vs =>
    if n ≤ vs.length then
      match f (vs.take n) with
      | none => (none, fields)
      | some r =>
        let rest := vs.drop n
        (some r,
          if rest.isEmpty then Fields.eraseKey fields tag
          else Fields.setQueue fields tag rest)
    else (none, fields)

/-! ### Transactions and scripts

Scripts are embedded at the instruction level: a script is the list of its
parsed instructions (opcodes and data pushes).  The byte-level
`Instruction::Err` case of the script iterator (malformed push encodings,
flaw `InvalidScript`) has no counterpart at this level and does not arise
in the embedding. -/

/-- A script instruction: an opcode or a data push. -/
inductive Instr where
  | op (code : Nat)
  | push (bytes : List Nat)
  deriving DecidableEq, Repr

/-- `OP_RETURN`. -/
def OP_RETURN : Nat := 0x6a

/-- `Keepsake::MAGIC_NUMBER` = `OP_PUSHNUM_14`. -/
def MAGIC_NUMBER : Nat := 0x5e

/-- A transaction output. -/
structure TxOut where
  value : Nat := 0
  script_pubkey : List Instr := []
  deriving DecidableEq, Repr

/-- A transaction (only the outputs are observed by the codec). -/
structure Transaction where
  output : List TxOut
  deriving DecidableEq, Repr

/-- `script_pubkey.is_op_return()`: the script's first byte is `OP_RETURN`. -/
def TxOut.isOpReturn (o : TxOut) : Bool :=
  match o.script_pubkey with
  | .op c :: _ => c = OP_RETURN
  | _ => false

/-- Modelled from the spec: `Transfer::from_integers` (transfer.rs is not in
the source tree).  The output index must fit `u32` and must not be greater
than the transaction output count (flaw text in flaw.rs: "transfer output
greater than transaction output count"). -/
def Transfer.fromIntegers (tx : Transaction) (id : RelicId)
    (amount output : Nat) : Option Transfer :=
  match tryIntoU32 output with
  | none => none
  | some out =>
    if out ≤ tx.output.length then some ⟨id, amount, out⟩ else none

/-! ### Message parsing (src/relics/keepsake/message.rs) -/

/-- The `Tag::Body` transfer list: 4-tuples `(delta_block, delta_tx,
amount, output)` with delta-decoded relic ids; a short trailing chunk is
`TrailingIntegers`, a failed delta `TransferRelicId`, a bad output
`TransferOutput`; parsing stops at the first flaw keeping earlier
transfers. -/
def parseBody (tx : Transaction) :
    RelicId → List Nat → Option RelicFlaw × List Transfer
  | _, [] => (none, [])
  | prev, a :: b :: c :: d :: rest =>
    match RelicId.next prev a b with
    | none => (some .transferRelicId, [])
    | some nid =>
      match Transfer.fromIntegers tx nid c d with
      | none => (some .transferOutput, [])
      | some t =>
        let (fl, ts) := parseBody tx nid rest
        (fl, t :: ts)
  | _, _ :: _ => (some .trailingIntegers, [])

/-- `Message` (message.rs). -/
structure Message where
  flaw : Option RelicFlaw
  transfers : List Transfer
  fields : Fields
  deriving Repr

/-- The field/body scan of `Message::from_integers`: pairs `(tag, value)`
are pushed into the field map until the distinguished `Body` tag starts the
transfer tuples; a tag without a value is `TruncatedField`. -/
def fromIntegersGo (tx : Transaction) :
    List Nat → Fields → Option RelicFlaw × List Transfer × Fields
  | [], fields => (none, [], fields)
  | t :: rest, fields =>
    if t = Tag.Body then
      let (fl, ts) := parseBody tx default rest
      (fl, ts, fields)
    else
      match rest with
      | [] => (some .truncatedField, [], fields)
      | v :: rest' => fromIntegersGo tx rest' (fields.push t v)

/-- `Message::from_integers`. -/
def Message.fromIntegers (tx : Transaction) (payload : List Nat) : Message :=
  let (fl, ts, fields) := fromIntegersGo tx payload []
  ⟨fl, ts, fields⟩

/-! ### Payload extraction (`Keepsake::payload`) -/

/-- The remaining instructions after the magic: data pushes concatenate
into the payload, any opcode is the `Opcode` flaw. -/
def concatPushes : List Instr → Except RelicFlaw (List Nat)
  | [] => .ok []
  | .push bs :: rest => (concatPushes rest).map (bs ++ ·)
  | .op _ :: _ => .error .opcode

/-- `Keepsake::payload`: find the first output whose script starts with
`OP_RETURN` followed by the protocol magic; concatenate its data pushes. -/
def Keepsake.payloadOf : List TxOut → Option (Except RelicFlaw (List Nat))
  | [] => none
  | o :: rest =>
    match o.script_pubkey with
    | .op c1 :: .op c2 :: instrs =>
      if c1 = OP_RETURN ∧ c2 = MAGIC_NUMBER then some (concatPushes instrs)
      else Keepsake.payloadOf rest
    | _ => Keepsake.payloadOf rest

/-! ### `Keepsake::decipher` (src/relics/keepsake.rs, lines 58–364) -/

/-- A one-integer `Tag::take`. -/
def take1 {α : Type} (tag : Nat) (fields : Fields) (f : Nat → Option α) :
    Option α × Fields :=
  tagTake tag 1 fields fun vs =>
    match vs with
    | [v] => f v
    | _ => none

/-- A two-integer `Tag::take`. -/
def take2 {α : Type} (tag : Nat) (fields : Fields) (f : Nat → Nat → Option α) :
    Option α × Fields :=
  tagTake tag 2 fields fun vs =>
    match vs with
    | [a, b] => f a b
    | _ => none

/-- A four-integer `Tag::take`. -/
def take4 {α : Type} (tag : Nat) (fields : Fields)
    (f : Nat → Nat → Nat → Nat → Option α) : Option α × Fields :=
  tagTake tag 4 fields fun vs =>
    match vs with
    | [a, b, c, d] => f a b c d
    | _ => none

/-- The `get_relic_id` validator: `RelicId::new(block.try_into()?,
tx.try_into()?)`. -/
def relicIdOf (block tx : Nat) : Option RelicId := do
  RelicId.new (← tryIntoU64 block) (← tryIntoU32 tx)

/-- The `get_non_zero` validator. -/
def nonZero (v : Nat) : Option Nat := if 0 < v then some v else none

/-- The `get_output_option` validator: a `u32` strictly below the output
count. -/
def outputOpt (tx : Transaction) (v : Nat) : Option Nat :=
  match tryIntoU32 v with
  | none => none
  | some value => if value < tx.output.length then some value else none

/-- The field/flag extraction phase of `Keepsake::decipher`: all `Tag::take`
and `Flag::take` calls in source order.  Returns the candidate keepsake,
the message flaw, the residual flag bitmap and the residual field map
(`none` mirrors the early `?` returns in the multi-mint block, which abort
the whole `decipher` with `None`). -/
def parseKeepsake (tx : Transaction) (ints : List Nat) :
    Option (Keepsake × Option RelicFlaw × Nat × Fields) :=
  let m := Message.fromIntegers tx ints
  let (flagsOpt, fds1) := take1 Tag.Flags m.fields some
  let flags0 := flagsOpt.getD 0
  let (sealing, flags1) := Flag.take Flag.sealingBit flags0
  let (release, flags2) := Flag.take Flag.releaseBit flags1
  let (manifestFlag, flags3) := Flag.take Flag.manifestBit flags2
  let (manifest, fds2) :=
    if manifestFlag then
      let (lp, a1) := take1 Tag.LeftParent fds1 some
      let (rp, a2) := take1 Tag.RightParent a1 some
      ((some ⟨lp, rp⟩ : Option Manifest), a2)
    else (none, fds1)
  let (enshriningFlag, flags4) := Flag.take Flag.enshriningBit flags3
  let (enshrining, flags5, fds3) :=
    if enshriningFlag then
      let (boostFlag, e1) := Flag.take Flag.boostTermsBit flags4
      let (boost, g1) :=
        if boostFlag then
          let (rc, b1) := take1 Tag.RareChance fds2 tryIntoU32
          let (rm, b2) := take1 Tag.RareMultiplier b1 tryIntoU16
          let (urc, b3) := take1 Tag.UltraRareChance b2 tryIntoU32
          let (urm, b4) := take1 Tag.UltraRareMultiplier b3 tryIntoU16
          ((some ⟨rc, rm, urc, urm⟩ : Option BoostTerms), b4)
        else (none, fds2)
      let (symbol, g2) := take1 Tag.Symbol g1 charFromU32
      let (subsidy, g3) := take1 Tag.Subsidy g2 nonZero
      let (mintTermsFlag, e2) := Flag.take Flag.mintTermsBit e1
      let (terms, g4) :=
        if mintTermsFlag then
          let (amount, c1) := take1 Tag.Amount g3 some
          let (blockCap, c2) := take1 Tag.BlockCap c1 tryIntoU32
          let (cap, c3) := take1 Tag.Cap c2 some
          let (man, c4) := take2 Tag.ManifestTag c3 relicIdOf
          let (maxPerTx, c5) := take1 Tag.MaxPerTx c4 tryIntoU8
          let (maxUnmints, c6) := take1 Tag.MaxUnmints c5 tryIntoU32
          let (priceFixed, c7) :=
            take1 Tag.Price c6 fun v => some (PriceModel.fixed v)
          let (price, c8) :=
            match priceFixed with
            | some p => ((some p : Option PriceModel), c7)
            | none =>
              take4 Tag.Price c7 fun v0 a b c =>
                if v0 = 0 then some (PriceModel.formula a b c) else none
          let (seed, c9) := take1 Tag.Seed c8 nonZero
          let (swapHeight, c10) := take1 Tag.SwapHeight c9 tryIntoU64
          ((some ⟨amount, blockCap, cap, man, maxPerTx, maxUnmints, price,
              seed, swapHeight⟩ : Option MintTerms), c10)
        else (none, g3)
      let (turbo, e3) := Flag.take Flag.turboBit e2
      ((some ⟨boost, symbol, subsidy, terms, turbo⟩ : Option Enshrining),
        e3, g4)
    else (none, flags4, fds2)
  let (mint, fds4) := take2 Tag.Mint fds3 relicIdOf
  let (unmint, fds5) := take2 Tag.Unmint fds4 relicIdOf
  let (multiMintFlag, flags6) := Flag.take Flag.multiMintBit flags5
  let (isUnmintOpt, flags7) :=
    if multiMintFlag then ((some false : Option Bool), flags6)
    else
      let (mu, f') := Flag.take Flag.multiUnmintBit flags6
      (if mu then some true else none, f')
  match
      (match isUnmintOpt with
       | none => some ((none : Option MultiMint), fds5)
       | some isU =>
         let (countOpt, d1) := take1 Tag.MultiMintCount fds5 tryIntoU8
         match countOpt with
         | none => none
         | some count =>
           let (blOpt, d2) := take1 Tag.MultiMintBaseLimit d1 some
           match blOpt with
           | none => none
           | some bl =>
             let (rOpt, d3) := take2 Tag.MultiMintRelic d2 relicIdOf
             match rOpt with
             | none => none
             | some r => some (some ⟨count, bl, r, isU⟩, d3)) with
  | none => none
  | some (multiMint, fds6) =>
    let (swapFlag, flags8) := Flag.take Flag.swapBit flags7
    let (swap, flags9, fds7) :=
      if swapFlag then
        let (sin, s1) := take2 Tag.SwapInput fds6 relicIdOf
        let (sout, s2) := take2 Tag.SwapOutput s1 relicIdOf
        let (sia, s3) := take1 Tag.SwapInputAmount s2 nonZero
        let (soa, s4) := take1 Tag.SwapOutputAmount s3 nonZero
        let (sexact, f') := Flag.take Flag.swapExactInputBit flags8
        ((some ⟨sin, sout, sia, soa, sexact⟩ : Option Swap), f', s4)
      else (none, flags8, fds6)
    let (summonFlag, flags10) := Flag.take Flag.summoningBit flags9
    let (summoning, flags11, fds8) :=
      if summonFlag then
        let (treasure, t1) := take2 Tag.Treasure fds7 relicIdOf
        let (hs, t2) := take1 Tag.HeightStart t1 tryIntoU64
        let (he, t3) := take1 Tag.HeightEnd t2 tryIntoU64
        let (scap, t4) := take1 Tag.SyndicateCap t3 tryIntoU32
        let (quota, t5) := take1 Tag.Quota t4 some
        let (royalty, t6) := take1 Tag.Royalty t5 some
        let (gated, fA) := Flag.take Flag.gatedBit flags10
        let (lock, t7) := take1 Tag.Lock t6 tryIntoU64
        let (reward, t8) := take1 Tag.Reward t7 some
        let (lockSubsidy, fB) := Flag.take Flag.lockSubsidyBit fA
        let (sturbo, fC) := Flag.take Flag.turboBit fB
        ((some ⟨treasure, (hs, he), scap, quota, royalty, gated, lock,
            reward, lockSubsidy, sturbo⟩ : Option Summoning), fC, t8)
      else (none, flags10, fds7)
    let (encasing, fds9) := take2 Tag.Syndicate fds8 relicIdOf
    let (pointer, fds10) := take1 Tag.Pointer fds9 (outputOpt tx)
    let (claim, fds11) := take1 Tag.Claim fds10 (outputOpt tx)
    some (⟨m.transfers, pointer, claim, sealing, enshrining, manifest,
      mint, multiMint, unmint, swap, summoning, encasing, release⟩,
      m.flaw, flags11, fds11)

/-! ### Enshrining validation (keepsake.rs lines 222–307, §4.6) -/

/-- `Enshrining::max_supply` (src/relics/enshrining.rs, with the boost
field names as keepsake.rs uses them):
`subsidy + seed + cap·amount·max_boost` with checked arithmetic. -/
def Enshrining.maxSupply (e : Enshrining) : Option Nat :=
  let subsidy := e.subsidy.getD 0
  let amount := (e.mint_terms.bind (·.amount)).getD 0
  let cap := (e.mint_terms.bind (·.cap)).getD 0
  let seed := (e.mint_terms.bind (·.seed)).getD 0
  let maxBoost :=
    (e.boost_terms.map fun b =>
      b.ultra_rare_multiplier.getD (b.rare_multiplier.getD 1)).getD 1
  do
    let t1 ← checkedMul128 cap amount
    let t2 ← checkedMul128 t1 maxBoost
    let s ← checkedAdd128 subsidy seed
    checkedAdd128 s t2

/-- The `terms_valid` closure of `Keepsake::decipher`: nonzero cap, the
overflow checks on `cap·amount`, `max_per_tx·amount`, `block_cap·amount`,
and the price-model conditions (`cap·price` for `Fixed`; `c > 0`,
`b/c ≤ a`, `cap ≤ 1_000_000` for `Formula`; a missing price is invalid). -/
def termsValidCheck (terms : MintTerms) : Bool :=
  match terms.cap with
  | none => false
  | some cap =>
    if cap = 0 then false
    else
      (match terms.amount with
       | some amount => decide (cap * amount ≤ U128MAX)
       | none => true) &&
      (match terms.max_per_tx, terms.amount with
       | some maxTx, some amount => decide (maxTx * amount ≤ U128MAX)
       | _, _ => true) &&
      (match terms.block_cap, terms.amount with
       | some maxBlock, some amount => decide (maxBlock * amount ≤ U128MAX)
       | _, _ => true) &&
      (match terms.price with
       | some (.fixed price) => decide (cap * price ≤ U128MAX)
       | some (.formula a b c) =>
         decide (0 < c) && decide (b / c ≤ a) && decide (cap ≤ 1000000)
       | none => false)

/-- The `boost_valid` closure of `Keepsake::decipher`. -/
def boostValidCheck (e : Enshrining) : Bool :=
  match e.boost_terms with
  | none => true
  | some boost =>
    let rareValid :=
      if boost.rare_chance.isSome || boost.rare_multiplier.isSome then
        match boost.rare_chance, boost.rare_multiplier with
        | some rc, some rm => decide (rc ≠ 0) && decide (1 < rm)
        | _, _ => false
      else true
    let ultraValid :=
      if boost.ultra_rare_chance.isSome || boost.ultra_rare_multiplier.isSome
      then
        match boost.ultra_rare_chance, boost.ultra_rare_multiplier with
        | some urc, some urm => decide (urc ≠ 0) && decide (1 < urm)
        | _, _ => false
      else true
    let multiplierValid :=
      match e.mint_terms.bind (·.amount) with
      | none => true
      | some amount =>
        (match boost.rare_multiplier with
         | some rm => decide (amount * rm ≤ U128MAX)
         | none => true) &&
        (match boost.ultra_rare_multiplier with
         | some urm => decide (amount * urm ≤ U128MAX)
         | none => true)
    rareValid && ultraValid && multiplierValid

/-- The full enshrining validation: `boost_valid && terms_valid &&
max_supply().is_some()` (a missing `mint_terms` makes `terms_valid` false
via `map_or(false, …)`). -/
def enshriningCheckOk (e : Enshrining) : Bool :=
  boostValidCheck e &&
  (match e.mint_terms with
   | none => false
   | some t => termsValidCheck t) &&
  (Enshrining.maxSupply e).isSome

/-- The flaw accumulation of `Keepsake::decipher` after the extraction
phase, in source `get_or_insert` order (the first flaw wins). -/
def keepsakeChecks (k : Keepsake) (flaw0 : Option RelicFlaw) (flags : Nat)
    (fields : Fields) : Option RelicFlaw :=
  flaw0 <|>
  (if k.manifest.isSome ∧ k.enshrining.isSome then
    some .enshriningAndManifest else none) <|>
  (if k.enshrining.isSome ∧ k.summoning.isSome then
    some .enshriningAndSummoning else none) <|>
  (match k.enshrining with
   | some e => if enshriningCheckOk e then none else some .invalidEnshrining
   | none => none) <|>
  (if k.mint = some RELIC_ID then some .invalidBaseTokenMint else none) <|>
  (if k.unmint = some RELIC_ID then some .invalidBaseTokenUnmint else none) <|>
  (match k.multi_mint with
   | some m => if m.relic = RELIC_ID then some .invalidBaseTokenMint else none
   | none => none) <|>
  (match k.swap with
   | some s =>
     if s.input.getD RELIC_ID = s.output.getD RELIC_ID then
       some .invalidSwap else none
   | none => none) <|>
  (if flags ≠ 0 then some .unrecognizedFlag else none) <|>
  (if Fields.hasEvenKey fields then some .unrecognizedEvenTag else none)

/-- `Keepsake::decipher` on an already-decoded integer sequence. -/
def decipherMessage (tx : Transaction) (ints : List Nat) :
    Option RelicArtifact :=
  (parseKeepsake tx ints).map fun (k, f0, flags, fields) =>
    match keepsakeChecks k f0 flags fields with
    | some f => .cenotaph (some f)
    | none => .keepsake k

/-- `Keepsake::decipher`. -/
def Keepsake.decipher (tx : Transaction) : Option RelicArtifact :=
  match Keepsake.payloadOf tx.output with
  | none => none
  | some (.error f) => some (.cenotaph (some f))
  | some (.ok payload) =>
    match integers payload with
    | .error _ => some (.cenotaph (some .varintFlaw))
    | .ok ints => decipherMessage tx ints

/-! ### `Keepsake::encipher` (src/relics/keepsake.rs, lines 366–527) -/

/-- `Tag::encode` for one value, as the integer pair it contributes to the
payload. -/
def tagEnc1 (tag v : Nat) : List Nat := [tag, v]

/-- `Tag::encode_option`. -/
def tagEncOpt (tag : Nat) (v : Option Nat) : List Nat :=
  match v with
  | none => []
  | some v => [tag, v]

/-- `Tag::encode` for a `[block, tx]` pair. -/
def tagEnc2 (tag a b : Nat) : List Nat := [tag, a, tag, b]

/-- Transfer ordering key: `sort_by_key(|transfer| transfer.id)` with the
derived lexicographic `Ord` on `RelicId`. -/
def transferLe (a b : Transfer) : Bool :=
  a.id.block < b.id.block ∨ (a.id.block = b.id.block ∧ a.id.tx ≤ b.id.tx)

/-- Delta-encode the sorted transfers (`previous.delta(transfer.id)` never
fails on a sorted list; the impossible branch mirrors the source's
`unwrap` by emitting the exhausted list). -/
def encodeTransfers : RelicId → List Transfer → List Nat
  | _, [] => []
  | previous, t :: rest =>
    match previous.delta t.id with
    | none => []
    | some (b, dtx) => b :: dtx :: t.amount :: t.output :: encodeTransfers t.id rest

/-- The flag bitmap accumulated by `encipher_internal`, `Flag::set` in
source order. -/
def encipherFlags (k : Keepsake) : Nat :=
  let f := 0
  let f := if k.sealing then Flag.set Flag.sealingBit f else f
  let f := if k.release then Flag.set Flag.releaseBit f else f
  let f := if k.manifest.isSome then Flag.set Flag.manifestBit f else f
  let f :=
    match k.enshrining with
    | none => f
    | some e =>
      let f := Flag.set Flag.enshriningBit f
      let f := if e.turbo then Flag.set Flag.turboBit f else f
      let f := if e.boost_terms.isSome then Flag.set Flag.boostTermsBit f else f
      if e.mint_terms.isSome then Flag.set Flag.mintTermsBit f else f
  let f :=
    match k.multi_mint with
    | none => f
    | some m =>
      if m.is_unmint then Flag.set Flag.multiUnmintBit f
      else Flag.set Flag.multiMintBit f
  let f :=
    match k.swap with
    | none => f
    | some s =>
      let f := Flag.set Flag.swapBit f
      if s.is_exact_input then Flag.set Flag.swapExactInputBit f else f
  match k.summoning with
  | none => f
  | some s =>
    let f := Flag.set Flag.summoningBit f
    let f := if s.gated then Flag.set Flag.gatedBit f else f
    let f := if s.lock_subsidy then Flag.set Flag.lockSubsidyBit f else f
    if s.turbo then Flag.set Flag.turboBit f else f

/-- The integer sequence whose varint encoding is the payload built by
`encipher_internal`, in source emission order. -/
def encipherIntegers (k : Keepsake) : List Nat :=
  (match k.manifest with
   | none => []
   | some m => tagEncOpt Tag.LeftParent m.left_parent ++
       tagEncOpt Tag.RightParent m.right_parent) ++
  (match k.enshrining with
   | none => []
   | some e =>
     tagEncOpt Tag.Symbol e.symbol ++
     tagEncOpt Tag.Subsidy e.subsidy ++
     (match e.boost_terms with
      | none => []
      | some b =>
        tagEncOpt Tag.RareChance b.rare_chance ++
        tagEncOpt Tag.RareMultiplier b.rare_multiplier ++
        tagEncOpt Tag.UltraRareChance b.ultra_rare_chance ++
        tagEncOpt Tag.UltraRareMultiplier b.ultra_rare_multiplier) ++
     (match e.mint_terms with
      | none => []
      | some t =>
        tagEncOpt Tag.Amount t.amount ++
        tagEncOpt Tag.BlockCap t.block_cap ++
        tagEncOpt Tag.MaxPerTx t.max_per_tx ++
        tagEncOpt Tag.Cap t.cap ++
        (match t.price with
         | none => []
         | some (.fixed price) => tagEnc1 Tag.Price price
         | some (.formula a b c) =>
           tagEnc1 Tag.Price 0 ++ tagEnc1 Tag.Price a ++
           tagEnc1 Tag.Price b ++ tagEnc1 Tag.Price c) ++
        tagEncOpt Tag.Seed t.seed ++
        tagEncOpt Tag.SwapHeight t.swap_height)) ++
  (match k.mint with
   | none => []
   | some id => tagEnc2 Tag.Mint id.block id.tx) ++
  (match k.multi_mint with
   | none => []
   | some m =>
     tagEnc1 Tag.MultiMintCount m.count ++
     tagEnc1 Tag.MultiMintBaseLimit m.base_limit ++
     tagEnc2 Tag.MultiMintRelic m.relic.block m.relic.tx) ++
  (match k.swap with
   | none => []
   | some s =>
     (match s.input with
      | none => []
      | some id => tagEnc2 Tag.SwapInput id.block id.tx) ++
     (match s.output with
      | none => []
      | some id => tagEnc2 Tag.SwapOutput id.block id.tx) ++
     tagEncOpt Tag.SwapInputAmount s.input_amount ++
     tagEncOpt Tag.SwapOutputAmount s.output_amount) ++
  (match k.summoning with
   | none => []
   | some s =>
     (match s.treasure with
      | none => []
      | some id => tagEnc2 Tag.Treasure id.block id.tx) ++
     tagEncOpt Tag.SyndicateCap s.cap ++
     tagEncOpt Tag.Lock s.lock ++
     tagEncOpt Tag.HeightStart s.height.1 ++
     tagEncOpt Tag.HeightEnd s.height.2 ++
     tagEncOpt Tag.Quota s.quota ++
     tagEncOpt Tag.Royalty s.royalty ++
     tagEncOpt Tag.Reward s.reward) ++
  (match k.encasing with
   | none => []
   | some id => tagEnc2 Tag.Syndicate id.block id.tx) ++
  (let flags := encipherFlags k
   if flags ≠ 0 then tagEnc1 Tag.Flags flags else []) ++
  tagEncOpt Tag.Pointer k.pointer ++
  tagEncOpt Tag.Claim k.claim ++
  (if k.transfers.isEmpty then []
   else
     Tag.Body ::
       encodeTransfers default (k.transfers.mergeSort transferLe))

/-- `Keepsake::encipher`: the OP_RETURN script — protocol magic, then the
payload bytes chunked into pushes of at most `MAX_SCRIPT_ELEMENT_SIZE`
(520) bytes. -/
def Keepsake.encipher (k : Keepsake) : List Instr :=
  .op OP_RETURN :: .op MAGIC_NUMBER ::
    ((varint.encodeAll (encipherIntegers k)).toChunks 520).map .push

/-- A transaction holding one output that carries the payload bytes of the
given integer sequence under the protocol envelope (the shape used
throughout the source's own test suite). -/
def mkTx (ints : List Nat) : Transaction :=
  ⟨[⟨0, [.op OP_RETURN, .op MAGIC_NUMBER, .push (varint.encodeAll ints)]⟩]⟩

/-- A transaction whose single output carries `encipher(K)`. -/
def txCarrying (k : Keepsake) : Transaction := ⟨[⟨0, Keepsake.encipher k⟩]⟩

/-- Mint terms with formula pricing `a=5, b=1, c=1`, cap 1, amount 100:
they pass the enshrining validation (`c > 0`, `b/c = 1 ≤ 5`,
`cap ≤ 1_000_000`, no overflow). -/
def formulaTerms : MintTerms :=
  { amount := some 100, cap := some 1, price := some (.formula 5 1 1) }

/-- A Keepsake whose enshrining carries `formulaTerms`: it references no
output, mints nothing and swaps nothing, so it is valid in the sense of
the round-trip claim. -/
def formulaKeepsake : Keepsake :=
  { enshrining := some { mint_terms := some formulaTerms } }

/-- Deciphering a single-output envelope transaction reduces to the message
phase on the encoded integers. -/
theorem decipher_mkTx (ints : List Nat) (h : ∀ x ∈ ints, x ≤ U128MAX) :
    Keepsake.decipher (mkTx ints) = decipherMessage (mkTx ints) ints := by
  unfold Keepsake.decipher mkTx Keepsake.payloadOf
  simp only [OP_RETURN, MAGIC_NUMBER, and_self, if_true, concatPushes]
  rw [show (Except.ok [] : Except RelicFlaw (List Nat)).map
    (varint.encodeAll ints ++ ·) = .ok (varint.encodeAll ints) by
      simp [Except.map]]
  simp only [integers_encodeAll ints h]

/-- C1: the Keepsake round-trip claim fails on the code.  `formulaKeepsake`
is valid — its enshrining passes the enshrining validation, it has no
transfers, no pointer/claim, no base-token mint or unmint and no swap —
yet deciphering the transaction that carries its `encipher` output yields
`Cenotaph(UnrecognizedEvenTag)` instead of the Keepsake: `encipher` emits
formula pricing as the marker sequence `Price [0, a, b, c]`, but the
`Tag::Price` parse in `decipher` first applies the one-integer `Fixed`
closure, which succeeds unconditionally, consuming only the marker and
leaving `a, b, c` queued under the even Price tag. -/
theorem c1_roundtrip_formula_price_is_cenotaph :
    enshriningCheckOk { mint_terms := some formulaTerms } = true ∧
    Keepsake.decipher (txCarrying formulaKeepsake) =
      some (.cenotaph (some .unrecognizedEvenTag)) := by
  constructor
  · decide
  · decide

/-! ### Updater-side data model

src/index/relics_entry.rs and src/index/updater/relics_updater.rs.
Txids are opaque and embedded as `Nat`. -/

/-- Modelled from the spec: `PoolError` (src/relics/pool.rs is not in the
source tree).  §4.4: slippage violation and insufficient liquidity. -/
inductive PoolError where
  | slippage
  | insufficientLiquidity
  deriving DecidableEq, Repr

/-- `RelicError` (src/relics/relic_error.rs); the `SpacedRelic` payload is
reduced to its `(name, spacers)` pair. -/
inductive RelicError where
  | sealingAlreadyExists (relic : Nat × Nat)
  | sealingInsufficientBalance (fee : Nat)
  | sealingBaseToken
  | sealingNotFound
  | unmintable
  | mintCap (cap : Nat)
  | mintInsufficientBalance (price : Nat)
  | unmintNotAllowed
  | noMintsToUnmint
  | maxMintPerTxExceeded (max : Nat)
  | mintBaseLimitExceeded (limit price : Nat)
  | unmintInsufficientBalance (required available : Nat)
  | mintBlockCapExceeded (limit : Nat)
  | swapNotAvailable
  | swapHeightNotReached (height : Nat)
  | swapFailed (cause : PoolError)
  | swapInsufficientBalance (required : Nat)
  | inscriptionMissing
  | inscriptionMetadataMissing
  | invalidMetadata
  | priceComputationError
  | syndicateStart (start : Nat)
  | syndicateEnd (stop : Nat)
  | syndicateCap (cap : Nat)
  | syndicateIsGated
  | syndicateNotFound (id : RelicId)
  | relicAlreadyEnshrined
  | relicNotFound (id : RelicId)
  | relicOwnerOnly
  | relicSubsidyLocked
  | chestInsufficientBalance (id : RelicId) (amount : Nat)
  | chestNotFound
  | chestLocked (unlockHeight : Nat)
  | noClaimableBalance
  deriving DecidableEq, Repr

/-- `RelicState` (src/index/relics_entry.rs). -/
structure RelicState where
  burned : Nat := 0
  mints : Nat := 0
  subsidy : Nat := 0
  subsidy_remaining : Nat := 0
  subsidy_locked : Bool := false
  deriving DecidableEq, Repr

/-- `Pool` (src/relics/pool.rs is not in the source tree; fields per §3 of
the spec and the `PoolValue` entry encoding in relics_entry.rs). -/
structure Pool where
  base_supply : Nat
  quote_supply : Nat
  fee_percentage : Nat
  deriving DecidableEq, Repr

/-- `PriceModel::compute_price` (src/relics/enshrining.rs): a constant for
`Fixed(p)`; `a − b/(c+x)` saturating at zero for `Formula`, `None` when
`c + x` overflows `u128`. -/
def PriceModel.computePrice (p : PriceModel) (x : Nat) : Option Nat :=
  match p with
  | .fixed price => some price
  | .formula a b c =>
    match checkedAdd128 c x with
    | none => none
    | some denom => some (a - b / denom)

/-- `PriceModel::compute_total_price` (src/relics/enshrining.rs). -/
def PriceModel.computeTotalPrice (p : PriceModel) (start : Nat) (count : Nat) :
    Option Nat :=
  match p with
  | .fixed price => checkedMul128 price count
  | .formula _ _ _ =>
    (List.range count).foldlM
      (fun total i => do
        let x ← checkedAdd128 start i
        let pr ← p.computePrice x
        checkedAdd128 total pr)
      0

namespace entry

/-- `MintTerms` in the updater's view (src/index/relics_entry.rs uses
`amount`, `cap`, `price`, `seed`, `swap_height`; relics_updater.rs
additionally reads `max_per_block` and the unmint allowance; the codec-side
structure above is keepsake.rs's richer view of the same data). -/
structure MintTerms where
  amount : Option Nat := none
  cap : Option Nat := none
  price : Option PriceModel := none
  seed : Option Nat := none
  swap_height : Option Nat := none
  max_per_block : Option Nat := none
  max_unmints : Option Nat := none
  deriving DecidableEq, Repr

/-- `MintTerms::compute_price`. -/
def MintTerms.computePrice (t : MintTerms) (x : Nat) : Option Nat :=
  t.price.bind (·.computePrice x)

/-- `MintTerms::compute_total_price`. -/
def MintTerms.computeTotalPrice (t : MintTerms) (start count : Nat) :
    Option Nat :=
  t.price.bind (·.computeTotalPrice start count)

end entry

/-- `RelicEntry` (src/index/relics_entry.rs); the enshrining txid is
opaque, the spaced relic is its `(name, spacers)` pair. -/
structure RelicEntry where
  block : Nat := 0
  enshrining : Nat := 0
  number : Nat := 0
  spaced_relic : Nat × Nat := (0, 0)
  symbol : Option Nat := none
  owner_sequence_number : Option Nat := none
  mint_terms : Option entry.MintTerms := none
  state : RelicState := {}
  pool : Option Pool := none
  timestamp : Nat := 0
  turbo : Bool := false
  deriving DecidableEq, Repr

/-- `RelicEntry::mintable` (src/index/relics_entry.rs, lines 130–150). -/
def RelicEntry.mintable (e : RelicEntry) (base_balance : Nat) :
    Except RelicError (Nat × Nat) :=
  match e.mint_terms with
  | none => .error .unmintable
  | some terms =>
    let cap := terms.cap.getD 0
    if cap ≤ e.state.mints then .error (.mintCap cap)
    else
      match terms.computePrice e.state.mints with
      | none => .error .priceComputationError
      | some price =>
        if base_balance < price then .error (.mintInsufficientBalance price)
        else .ok (terms.amount.getD 0, price)

/-- `RelicEntry::locked_base_supply` (src/index/relics_entry.rs); the
`saturating_add` of the formula loop is mirrored by capping at
`u128::MAX`. -/
def RelicEntry.lockedBaseSupply (e : RelicEntry) : Nat :=
  match e.pool with
  | some pool => pool.base_supply
  | none =>
    match e.mint_terms with
    | none => 0
    | some terms =>
      match terms.price with
      | some (.fixed fixed) => e.state.mints * fixed
      | some (.formula _ _ _) =>
        (List.range e.state.mints).foldl
          (fun total x => min (total + (terms.computePrice x).getD 0) U128MAX) 0
      | none => 0

/-- C6: for an entry with mint terms, `mintable` fails with `MintCap(cap)`
exactly when `state.mints ≥ cap`; otherwise, with the price computed at
`x = state.mints`, it fails with `MintInsufficientBalance(price)` exactly
when the base balance is below the price, and returns
`(terms.amount, price)` otherwise.  The price of mint index `x` is the
constant `p` for `Fixed(p)` and `a − b/(c+x)` saturating at zero for
`Formula{a,b,c}`, undefined only when `c + x` overflows `u128`. -/
theorem c6_mintable_price :
    (∀ (e : RelicEntry) (terms : entry.MintTerms) (b : Nat),
      e.mint_terms = some terms →
      (e.mintable b = .error (.mintCap (terms.cap.getD 0)) ↔
        terms.cap.getD 0 ≤ e.state.mints)) ∧
    (∀ (e : RelicEntry) (terms : entry.MintTerms) (b p : Nat),
      e.mint_terms = some terms →
      e.state.mints < terms.cap.getD 0 →
      entry.MintTerms.computePrice terms e.state.mints = some p →
      ((e.mintable b = .error (.mintInsufficientBalance p) ↔ b < p) ∧
        (p ≤ b → e.mintable b = .ok (terms.amount.getD 0, p)))) ∧
    (∀ p x, PriceModel.computePrice (.fixed p) x = some p) ∧
    (∀ a b c x, PriceModel.computePrice (.formula a b c) x =
      if c + x ≤ U128MAX then some (a - b / (c + x)) else none) := by
  refine ⟨?_, ?_, ?_, ?_⟩
  · intro e terms b hterms
    unfold RelicEntry.mintable
    rw [hterms]
    dsimp only
    constructor
    · intro h
      by_contra hcon
      rw [if_neg (by omega)] at h
      rcases hp : entry.MintTerms.computePrice terms e.state.mints with _ | p
      · rw [hp] at h; simp at h
      · rw [hp] at h
        dsimp only at h
        split at h <;> simp at h
    · intro h
      rw [if_pos h]
  · intro e terms b p hterms hcap hprice
    unfold RelicEntry.mintable
    rw [hterms]
    dsimp only
    rw [if_neg (by omega), hprice]
    dsimp only
    constructor
    · constructor
      · intro h
        by_contra hcon
        rw [if_neg (by omega)] at h
        simp at h
      · intro h
        rw [if_pos h]
    · intro h
      rw [if_neg (by omega)]
  · intro p x
    rfl
  · intro a b c x
    show (match checkedAdd128 c x with
      | none => none
      | some denom => some (a - b / denom)) =
      if c + x ≤ U128MAX then some (a - b / (c + x)) else none
    unfold checkedAdd128
    by_cases h : c + x ≤ U128MAX
    · rw [if_pos h, if_pos h]
    · rw [if_neg h, if_neg h]

/-- Witness for C6 at a concrete entry with `cap = 1`, `Fixed(5)` pricing,
zero mints and zero base balance. -/
theorem c6_mintable_price_witness :
    RelicEntry.mintable
      { mint_terms := some { cap := some 1, price := some (.fixed 5) } } 0 =
      .error (.mintInsufficientBalance 5) :=
  ((c6_mintable_price.2.1
      { mint_terms := some { cap := some 1, price := some (.fixed 5) } }
      { cap := some 1, price := some (.fixed 5) } 0 5 rfl (by decide)
      rfl).1).mpr (by decide)

/-! ### Flaw-chain inversion helpers -/

theorem orElse_eq_none_iff {α : Type} (a : Option α) (b : Option α) :
    (a <|> b) = none ↔ a = none ∧ b = none := by
  cases a <;> simp

theorem orElse_isSome_right {α : Type} (a : Option α) (b : Option α)
    (hb : b.isSome) : (a <|> b).isSome := by
  cases a <;> simp [hb]

theorem orElse_isSome_left {α : Type} (a : Option α) (b : Option α)
    (ha : a.isSome) : (a <|> b).isSome := by
  cases a <;> simp_all

/-- If the flaw chain is empty, any parsed enshrining passed validation. -/
theorem keepsakeChecks_none_enshrining (k : Keepsake) (f0 : Option RelicFlaw)
    (flags : Nat) (fields : Fields)
    (h : keepsakeChecks k f0 flags fields = none) :
    ∀ e, k.enshrining = some e → enshriningCheckOk e = true := by
  intro e he
  unfold keepsakeChecks at h
  rw [orElse_eq_none_iff] at h
  obtain ⟨-, h⟩ := h
  rw [orElse_eq_none_iff] at h
  obtain ⟨-, h⟩ := h
  rw [orElse_eq_none_iff] at h
  obtain ⟨-, h⟩ := h
  rw [orElse_eq_none_iff] at h
  obtain ⟨h, -⟩ := h
  rw [he] at h
  dsimp only at h
  by_contra hcon
  rw [if_neg (by simpa using hcon)] at h
  simp at h

/-- If a parsed enshrining fails validation, the flaw chain is nonempty. -/
theorem keepsakeChecks_some_of_invalid (k : Keepsake) (f0 : Option RelicFlaw)
    (flags : Nat) (fields : Fields) (e : Enshrining)
    (he : k.enshrining = some e) (hbad : enshriningCheckOk e = false) :
    ∃ f, keepsakeChecks k f0 flags fields = some f := by
  have hsome : (keepsakeChecks k f0 flags fields).isSome := by
    unfold keepsakeChecks
    refine orElse_isSome_right _ _ ?_
    refine orElse_isSome_right _ _ ?_
    refine orElse_isSome_right _ _ ?_
    apply orElse_isSome_left
    rw [he]
    dsimp only
    rw [if_neg (by simp [hbad])]
    rfl
  exact Option.isSome_iff_exists.mp hsome

/-- C5: a deciphered message containing an enshrining survives as a
Keepsake only if the enshrining validation holds; if validation fails the
artifact is a Cenotaph; and the validation requires exactly the claimed
conditions — a present, nonzero cap, no `u128` overflow in `cap·amount`,
`max_per_tx·amount`, `block_cap·amount`, a present price model, and
`c > 0`, `b/c ≤ a`, `cap ≤ 1_000_000` for formula pricing — so in
particular a parsed enshrining with `cap = 0` always yields a Cenotaph. -/
theorem c5_enshrining_validation :
    (∀ (tx : Transaction) (ints : List Nat) (k : Keepsake) (e : Enshrining),
      decipherMessage tx ints = some (.keepsake k) →
      k.enshrining = some e → enshriningCheckOk e = true) ∧
    (∀ (tx : Transaction) (ints : List Nat) (k : Keepsake)
      (f0 : Option RelicFlaw) (flags : Nat) (fields : Fields) (e : Enshrining),
      parseKeepsake tx ints = some (k, f0, flags, fields) →
      k.enshrining = some e → enshriningCheckOk e = false →
      ∃ f, decipherMessage tx ints = some (.cenotaph (some f))) ∧
    (∀ (e : Enshrining) (t : MintTerms), e.mint_terms = some t →
      enshriningCheckOk e = true →
      ∃ cap, t.cap = some cap ∧ cap ≠ 0 ∧
        (∀ amount, t.amount = some amount →
          cap * amount ≤ U128MAX ∧
          (∀ maxTx, t.max_per_tx = some maxTx → maxTx * amount ≤ U128MAX) ∧
          (∀ blockCap, t.block_cap = some blockCap →
            blockCap * amount ≤ U128MAX)) ∧
        t.price.isSome = true ∧
        (∀ a b c, t.price = some (.formula a b c) →
          0 < c ∧ b / c ≤ a ∧ cap ≤ 1000000)) ∧
    (∀ (e : Enshrining) (t : MintTerms), e.mint_terms = some t →
      t.cap = some 0 → enshriningCheckOk e = false) := by
  refine ⟨?_, ?_, ?_, ?_⟩
  · intro tx ints k e hdec he
    unfold decipherMessage at hdec
    rcases hp : parseKeepsake tx ints with _ | ⟨k', f0, flags, fields⟩
    · rw [hp] at hdec; simp at hdec
    · rw [hp] at hdec
      simp only [Option.map] at hdec
      rcases hc : keepsakeChecks k' f0 flags fields with _ | f
      · rw [hc] at hdec
        simp only [Option.some.injEq, RelicArtifact.keepsake.injEq] at hdec
        subst hdec
        exact keepsakeChecks_none_enshrining k' f0 flags fields hc e he
      · rw [hc] at hdec
        simp at hdec
  · intro tx ints k f0 flags fields e hp he hbad
    obtain ⟨f, hf⟩ :=
      keepsakeChecks_some_of_invalid k f0 flags fields e he hbad
    refine ⟨f, ?_⟩
    unfold decipherMessage
    rw [hp]
    simp only [Option.map, hf]
  · intro e t ht hok
    unfold enshriningCheckOk at hok
    rw [ht] at hok
    dsimp only at hok
    rw [Bool.and_eq_true, Bool.and_eq_true] at hok
    have hterms := hok.1.2
    unfold termsValidCheck at hterms
    rcases hcap : t.cap with _ | cap
    · rw [hcap] at hterms; simp at hterms
    · rw [hcap] at hterms
      dsimp only at hterms
      rcases Nat.eq_zero_or_pos cap with hz | hpos
      · subst hz; simp at hterms
      · rw [if_neg (by omega)] at hterms
        simp only [Bool.and_eq_true] at hterms
        obtain ⟨⟨⟨hca, hmt⟩, hbc⟩, hpr⟩ := hterms
        refine ⟨cap, rfl, by omega, ?_, ?_, ?_⟩
        · intro amount hamount
          rw [hamount] at hca hmt hbc
          refine ⟨by simpa using hca, ?_, ?_⟩
          · intro maxTx hmtx
            rw [hmtx] at hmt
            simpa using hmt
          · intro blockCap hbcap
            rw [hbcap] at hbc
            simpa using hbc
        · rcases hp : t.price with _ | p
          · rw [hp] at hpr; simp at hpr
          · rfl
        · intro a b c hform
          rw [hform] at hpr
          simp only [decide_eq_true_eq, Bool.and_eq_true] at hpr
          omega
  · intro e t ht hcap
    unfold enshriningCheckOk termsValidCheck
    rw [ht]
    dsimp only
    rw [hcap]
    simp

/-- Mint terms with `cap = 0` for the C5 witness. -/
def capZeroTerms : MintTerms :=
  { amount := some 100, cap := some 0, price := some (.fixed 5) }

/-- An enshrining with `cap = 0` for the C5 witness. -/
def capZeroEnshrining : Enshrining := { mint_terms := some capZeroTerms }

/-- The keepsake parsed from the C5 witness payload. -/
def capZeroKeepsake : Keepsake := { enshrining := some capZeroEnshrining }

/-- Witness for C5: the concrete cap-0 enshrining payload
`[Flags, Enshrining|MintTerms, Amount, 100, Cap, 0, Price, 5]` deciphers
to a Cenotaph. -/
theorem c5_enshrining_validation_witness :
    ∃ f, decipherMessage (mkTx [Tag.Flags,
        Flag.mask Flag.enshriningBit + Flag.mask Flag.mintTermsBit,
        Tag.Amount, 100, Tag.Cap, 0, Tag.Price, 5])
      [Tag.Flags, Flag.mask Flag.enshriningBit + Flag.mask Flag.mintTermsBit,
        Tag.Amount, 100, Tag.Cap, 0, Tag.Price, 5] =
      some (.cenotaph (some f)) := by
  refine c5_enshrining_validation.2.1 _ _ capZeroKeepsake none 0 []
    capZeroEnshrining ?_ ?_ ?_
  · rfl
  · rfl
  · rfl

/-! ### Duplicate-tag behavior (C4) -/

/-- The enshrining produced by the duplicated-`Symbol` payload of the C4
odd-tag conjunct: the first symbol value (97, `'a'`) wins. -/
def symbolDupEnshrining : Enshrining :=
  { symbol := some 97,
    mint_terms := some
      { amount := some 100, cap := some 1, price := some (.fixed 5) } }

theorem decipher_mkTx_pair (t v1 v2 : Nat) (ht : t ≤ U128MAX)
    (h1 : v1 ≤ U128MAX) (h2 : v2 ≤ U128MAX) :
    Keepsake.decipher (mkTx [t, v1, t, v2]) =
      decipherMessage (mkTx [t, v1, t, v2]) [t, v1, t, v2] := by
  apply decipher_mkTx
  intro x hx
  simp only [List.mem_cons, List.not_mem_nil, or_false] at hx
  rcases hx with rfl | rfl | rfl | rfl <;> assumption

theorem decipher_mkTx_quad (t a b c d : Nat) (ht : t ≤ U128MAX)
    (ha : a ≤ U128MAX) (hb : b ≤ U128MAX) (hc : c ≤ U128MAX)
    (hd : d ≤ U128MAX) :
    Keepsake.decipher (mkTx [t, a, t, b, t, c, t, d]) =
      decipherMessage (mkTx [t, a, t, b, t, c, t, d])
        [t, a, t, b, t, c, t, d] := by
  apply decipher_mkTx
  intro x hx
  simp only [List.mem_cons, List.not_mem_nil, or_false] at hx
  rcases hx with rfl | rfl | rfl | rfl | rfl | rfl | rfl | rfl | rfl
    <;> assumption

/-- C4 counterexample: the even tag `Mint` (20) appears twice in the
payload `[Mint, 1, Mint, 5]`, yet the message is a valid Keepsake, not a
Cenotaph — for a two-integer tag the repeated pair forms one field. -/
theorem c4_mint_pair_is_not_cenotaph :
    Keepsake.decipher (mkTx [20, 1, 20, 5]) =
      some (.keepsake { mint := some ⟨1, 5⟩ }) := by
  decide

/-- C4 (amended): a recognized tag repeating beyond the number of integers
its field consumes makes an even tag a `UnrecognizedEvenTag` Cenotaph
while an odd tag's later duplicates are ignored (first wins).  Spelled
out: (1) a duplicated one-integer even tag that is never consumed
(enshrining/mint-terms/swap/summoning/multi-mint tags without their
flags, and `Cenotaph` itself) is a Cenotaph; (2) so is a duplicated
consumed one-integer even tag (`Pointer`, `Claim`); (3) so is a
two-integer even tag (`SwapInput`, `SwapOutput`, `Treasure`,
`MultiMintRelic`) occurring four times, and (4) `Mint`/`Syndicate`
occurring four times beyond their consumed pair; (5) a two-integer even
tag occurring exactly twice is one field and stays a valid Keepsake;
(6) duplicates of the odd tags `Nop` and `Symbol` are ignored, the first
`Symbol` value winning. -/
theorem c4_duplicate_tag_behavior :
    (∀ t, t ∈ [10, 12, 14, 16, 18, 22, 24, 26, 28, 34, 36, 42, 44, 46,
        48, 50, 52, 54, 72, 74, 126] →
      ∀ v1 v2, v1 ≤ U128MAX → v2 ≤ U128MAX →
      Keepsake.decipher (mkTx [t, v1, t, v2]) =
        some (.cenotaph (some .unrecognizedEvenTag))) ∧
    (∀ t, t ∈ [4, 6] → ∀ v2, v2 ≤ U128MAX →
      Keepsake.decipher (mkTx [t, 0, t, v2]) =
        some (.cenotaph (some .unrecognizedEvenTag))) ∧
    (∀ t, t ∈ [30, 32, 40, 76] → ∀ a b c d,
      a ≤ U128MAX → b ≤ U128MAX → c ≤ U128MAX → d ≤ U128MAX →
      Keepsake.decipher (mkTx [t, a, t, b, t, c, t, d]) =
        some (.cenotaph (some .unrecognizedEvenTag))) ∧
    (∀ t, t ∈ [20, 60] → ∀ c d, c ≤ U128MAX → d ≤ U128MAX →
      Keepsake.decipher (mkTx [t, 1, t, 5, t, c, t, d]) =
        some (.cenotaph (some .unrecognizedEvenTag))) ∧
    (Keepsake.decipher (mkTx [60, 1, 60, 5]) =
      some (.keepsake { encasing := some ⟨1, 5⟩ })) ∧
    (∀ v1 v2, v1 ≤ U128MAX → v2 ≤ U128MAX →
      Keepsake.decipher (mkTx [127, v1, 127, v2]) =
        some (.keepsake {})) ∧
    (∀ v2, v2 ≤ U128MAX →
      Keepsake.decipher (mkTx [Tag.Flags,
          Flag.mask Flag.enshriningBit + Flag.mask Flag.mintTermsBit,
          Tag.Amount, 100, Tag.Cap, 1, Tag.Price, 5,
          Tag.Symbol, 97, Tag.Symbol, v2]) =
        some (.keepsake { enshrining := some symbolDupEnshrining })) := by
  refine ⟨?_, ?_, ?_, ?_, ?_, ?_, ?_⟩
  · intro t ht v1 v2 h1 h2
    fin_cases ht <;>
      (rw [decipher_mkTx_pair _ _ _ (by decide) h1 h2]; rfl)
  · intro t ht v2 h2
    fin_cases ht <;>
      (rw [decipher_mkTx_pair _ _ _ (by decide) (by decide) h2]; rfl)
  · intro t ht a b c d ha hb hc hd
    fin_cases ht <;>
      (rw [decipher_mkTx_quad _ _ _ _ _ (by decide) ha hb hc hd]; rfl)
  · intro t ht c d hc hd
    fin_cases ht <;>
      (rw [decipher_mkTx_quad _ _ _ _ _ (by decide) (by decide) (by decide)
        hc hd]; rfl)
  · decide
  · intro v1 v2 h1 h2
    rw [decipher_mkTx_pair _ _ _ (by decide) h1 h2]
    rfl
  · intro v2 h2
    rw [decipher_mkTx _ (by
      intro x hx
      simp only [List.mem_cons, List.not_mem_nil, or_false] at hx
      rcases hx with rfl | rfl | rfl | rfl | rfl | rfl | rfl | rfl | rfl
        | rfl | rfl | rfl <;> first | assumption | decide)]
    rfl

/-- Witness for C4 at concrete duplicate payloads. -/
theorem c4_duplicate_tag_behavior_witness :
    Keepsake.decipher (mkTx [10, 3, 10, 7]) =
      some (.cenotaph (some .unrecognizedEvenTag)) ∧
    Keepsake.decipher (mkTx [30, 1, 30, 2, 30, 3, 30, 4]) =
      some (.cenotaph (some .unrecognizedEvenTag)) ∧
    Keepsake.decipher (mkTx [127, 8, 127, 9]) = some (.keepsake {}) :=
  ⟨c4_duplicate_tag_behavior.1 10 (by decide) 3 7 (by decide) (by decide),
    c4_duplicate_tag_behavior.2.2.1 30 (by decide) 1 2 3 4 (by decide)
      (by decide) (by decide) (by decide),
    c4_duplicate_tag_behavior.2.2.2.2.2.1 8 9 (by decide) (by decide)⟩

/-! ### Relic updater: mint / multi-mint / unmint operations
(src/index/updater/relics_updater.rs) -/

/-- `SwapDirection` (src/relics/pool.rs is not in the source tree; the two
directions per §4.4). -/
inductive SwapDirection where
  | baseToQuote
  | quoteToBase
  deriving DecidableEq, Repr

/-- `BalanceDiff` (pool.rs): the swap outcome applied to a pool, as read by
`swap_apply` — direction, input paid, output received, fee taken from the
input side. -/
structure BalanceDiff where
  direction : SwapDirection
  input : Nat
  output : Nat
  fee : Nat
  deriving DecidableEq, Repr

/-- Modelled from the spec: `Pool::apply` (pool.rs is not in the source
tree).  §4.4 and scenario 4 of §8: the pool gains the input net of the fee
and pays out the output on the opposite side. -/
def Pool.apply (pool : Pool) (diff : BalanceDiff) : Pool :=
  match diff.direction with
  | .baseToQuote =>
    ⟨pool.base_supply + (diff.input - diff.fee),
      pool.quote_supply - diff.output, pool.fee_percentage⟩
  | .quoteToBase =>
    ⟨pool.base_supply - diff.output,
      pool.quote_supply + (diff.input - diff.fee), pool.fee_percentage⟩

/-- The cap of an entry's mint terms (`terms.cap.unwrap_or_default()`). -/
def capOf (e : RelicEntry) : Nat := (e.mint_terms.bind (·.cap)).getD 0

/-- The seed of an entry's mint terms (`terms.seed.unwrap_or_default()`). -/
def seedOf (e : RelicEntry) : Nat := (e.mint_terms.bind (·.seed)).getD 0

/-- `state.mints += n`. -/
def bumpMints (e : RelicEntry) (n : Nat) : RelicEntry :=
  { e with state := { e.state with mints := e.state.mints + n } }

/-- The pool-creation step shared by `mint` and `multi_mint`
(relics_updater.rs lines 1181–1200 and 1249–1267): once the incremented
mint count reaches the cap, create the pool from the locked base supply
and the seed unless either is zero.  The source `assert!`s that no pool
exists at that point; the assertion holds under the pool invariant and the
model simply installs the pool. -/
def createPoolIfCapped (e : RelicEntry) : RelicEntry :=
  if e.state.mints = capOf e ∧ e.pool = none then
    let base_supply := e.lockedBaseSupply
    let quote_supply := seedOf e
    if base_supply = 0 ∨ quote_supply = 0 then e
    else { e with pool := some ⟨base_supply, quote_supply, 1⟩ }
  else e

/-- `RelicUpdater::mint` (relics_updater.rs lines 1140–1213) restricted to
its effect on the relic entry and the per-block mint counter of this
relic: per-block cap check, `mintable`, counter bump, mint-count bump,
pool creation.  Returns the updated entry and counter with the minted
amount and price. -/
def RelicUpdater.mint (cnt : Nat) (e : RelicEntry) (base_balance : Nat) :
    Except RelicError (RelicEntry × Nat × Nat × Nat) :=
  let mpb := e.mint_terms.bind (·.max_per_block)
  match mpb with
  | some maxPerBlock =>
    if maxPerBlock ≤ cnt then .error (.mintBlockCapExceeded maxPerBlock)
    else
      match e.mintable base_balance with
      | .error cause => .error cause
      | .ok (amount, price) =>
        .ok (createPoolIfCapped (bumpMints e 1), cnt + 1, amount, price)
  | none =>
    match e.mintable base_balance with
    | .error cause => .error cause
    | .ok (amount, price) =>
      .ok (createPoolIfCapped (bumpMints e 1), cnt, amount, price)

/-- Modelled from the spec: `RelicEntry::multi_mintable` is not in the
source tree.  §4.5.4: for a multi-mint of `n`, compute the cumulative
prices of mint indices `mints..mints+n`; reject with `MintCap` when the
mints would exceed the cap (`count = 255` "respects caps atomically — all
or nothing", §8), with `MintBaseLimitExceeded` when the total exceeds the
caller's `base_limit`, with `MintInsufficientBalance` when the balance
cannot pay the total.  Returns the per-mint `(amount, price)` list. -/
def RelicEntry.multiMintable (e : RelicEntry)
    (base_balance num_mints base_limit : Nat) :
    Except RelicError (List (Nat × Nat)) :=
  match e.mint_terms with
  | none => .error .unmintable
  | some terms =>
    let cap := terms.cap.getD 0
    if cap < e.state.mints + num_mints then .error (.mintCap cap)
    else
      match terms.computeTotalPrice e.state.mints num_mints with
      | none => .error .priceComputationError
      | some total =>
        if base_limit < total then
          .error (.mintBaseLimitExceeded base_limit total)
        else if base_balance < total then
          .error (.mintInsufficientBalance total)
        else
          .ok ((List.range num_mints).map fun i =>
            (terms.amount.getD 0,
              (terms.computePrice (e.state.mints + i)).getD 0))

/-- `RelicUpdater::multi_mint` (relics_updater.rs lines 1215–1287)
restricted to the relic entry and per-block counter: per-block cap check
over the whole batch, `multi_mintable`, counter and mint-count bumps by
the number of results, pool creation. -/
def RelicUpdater.multiMint (cnt : Nat) (e : RelicEntry)
    (base_balance num_mints base_limit : Nat) :
    Except RelicError (RelicEntry × Nat × List (Nat × Nat)) :=
  let mpb := e.mint_terms.bind (·.max_per_block)
  let go : Except RelicError (RelicEntry × Nat × List (Nat × Nat)) :=
    match e.multiMintable base_balance num_mints base_limit with
    | .error cause => .error cause
    | .ok results =>
      let cnt' := if mpb.isSome then cnt + results.length else cnt
      .ok (createPoolIfCapped (bumpMints e results.length), cnt', results)
  match mpb with
  | some maxPerBlock =>
    if maxPerBlock < cnt + num_mints then
      .error (.mintBlockCapExceeded maxPerBlock)
    else go
  | none => go

/-- Modelled from the spec: `RelicEntry::unmintable` is not in the source
tree.  §4.5.5: un-minting is only permitted when `terms.max_unmints`
allows it (`UnmintNotAllowed`), there must be mints to revert
(`NoMintsToUnmint`), and — to keep invariant 2 of §3, `pool is Some ⇒
state.mints == cap` — not once the pool exists; the refund is the price
of the last mint index. -/
def RelicEntry.unmintable (e : RelicEntry) : Except RelicError (Nat × Nat) :=
  match e.mint_terms with
  | none => .error .unmintable
  | some terms =>
    if terms.max_unmints.getD 0 = 0 then .error .unmintNotAllowed
    else if e.pool.isSome then .error .unmintNotAllowed
    else if e.state.mints = 0 then .error .noMintsToUnmint
    else
      match terms.computePrice (e.state.mints - 1) with
      | none => .error .priceComputationError
      | some price => .ok (terms.amount.getD 0, price)

/-- Modelled from the spec: the multi-unmint variant of `unmintable` for a
batch of `count` reverts, refunding the prices of the last `count` mint
indices. -/
def RelicEntry.multiUnmintable (e : RelicEntry) (count : Nat) :
    Except RelicError (List (Nat × Nat)) :=
  match e.mint_terms with
  | none => .error .unmintable
  | some terms =>
    if terms.max_unmints.getD 0 = 0 then .error .unmintNotAllowed
    else if e.pool.isSome then .error .unmintNotAllowed
    else if e.state.mints < count then .error .noMintsToUnmint
    else
      .ok ((List.range count).map fun i =>
        (terms.amount.getD 0,
          (terms.computePrice (e.state.mints - 1 - i)).getD 0))

/-- `RelicUpdater::unmint` (relics_updater.rs lines 1289–1311):
`unmintable`, the minted-token balance check, and the mint-count
decrement. -/
def RelicUpdater.unmint (e : RelicEntry) (token_balance : Nat) :
    Except RelicError (RelicEntry × Nat × Nat) :=
  match e.unmintable with
  | .error cause => .error cause
  | .ok (amount, price) =>
    if token_balance < amount then
      .error (.unmintInsufficientBalance amount token_balance)
    else
      .ok ({ e with state := { e.state with mints := e.state.mints - 1 } },
        amount, price)

/-- `RelicUpdater::multi_unmint` (relics_updater.rs lines 1313 ff.):
`multi_unmintable`, the total-balance check, the minimum-refund check, and
the mint-count decrement by `count`. -/
def RelicUpdater.multiUnmint (e : RelicEntry)
    (token_balance count base_limit : Nat) :
    Except RelicError (RelicEntry × List (Nat × Nat)) :=
  match e.multiUnmintable count with
  | .error cause => .error cause
  | .ok results =>
    let totalMinted := (results.map (·.1)).sum
    if token_balance < totalMinted then
      .error (.unmintInsufficientBalance totalMinted token_balance)
    else
      let totalRefund := (results.map (·.2)).sum
      if totalRefund < base_limit then
        .error (.mintBaseLimitExceeded base_limit totalRefund)
      else
        .ok ({ e with state :=
          { e.state with mints := e.state.mints - count } }, results)

/-- `RelicUpdater::mint_base_token` (relics_updater.rs lines 1100–1138)
restricted to the base-token entry: for `b` burned bonestone inscriptions
mint `b · terms.amount`, incrementing `state.mints` by `b`; zero burns are
a no-op (`Ok(None)`).  The source `assert!`s `mints + b ≤ cap`; the
assertion is a hypothesis of the invariant theorem below. -/
def RelicUpdater.mintBaseToken (e : RelicEntry) (b : Nat) :
    Option (RelicEntry × Nat) :=
  if b = 0 then none
  else some (bumpMints e b, (e.mint_terms.bind (·.amount)).getD 0 * b)

/-- Invariant 2 of §3: `state.mints ≤ cap` and a pool implies
`state.mints = cap`. -/
def poolInv (e : RelicEntry) : Prop :=
  e.state.mints ≤ capOf e ∧ (e.pool.isSome → e.state.mints = capOf e)

theorem mintable_ok_inv (e : RelicEntry) (b a p : Nat)
    (h : e.mintable b = .ok (a, p)) :
    e.mint_terms.isSome ∧ e.state.mints < capOf e := by
  unfold RelicEntry.mintable at h
  rcases ht : e.mint_terms with _ | terms
  · rw [ht] at h; simp at h
  · rw [ht] at h
    dsimp only at h
    constructor
    · rfl
    · by_contra hcon
      have hce : capOf e = terms.cap.getD 0 := by
        unfold capOf; rw [ht]; rfl
      rw [hce] at hcon
      rw [if_pos (by omega)] at h
      simp at h

theorem multiMintable_ok_inv (e : RelicEntry) (b n bl : Nat)
    (rs : List (Nat × Nat)) (h : e.multiMintable b n bl = .ok rs) :
    e.mint_terms.isSome ∧ e.state.mints + n ≤ capOf e ∧ rs.length = n := by
  unfold RelicEntry.multiMintable at h
  rcases ht : e.mint_terms with _ | terms
  · rw [ht] at h; simp at h
  · rw [ht] at h
    dsimp only at h
    have hcap : ¬ terms.cap.getD 0 < e.state.mints + n := by
      by_contra hcon
      rw [if_pos hcon] at h
      simp at h
    rw [if_neg hcap] at h
    refine ⟨rfl, ?_, ?_⟩
    · have hce : capOf e = terms.cap.getD 0 := by
        unfold capOf; rw [ht]; rfl
      rw [hce]
      omega
    · rcases htp : terms.computeTotalPrice e.state.mints n with _ | total
      · rw [htp] at h; simp at h
      · rw [htp] at h
        dsimp only at h
        split at h
        · simp at h
        · split at h
          · simp at h
          · simp only [Except.ok.injEq] at h
            rw [← h]
            simp

theorem unmintable_ok_inv (e : RelicEntry) (a p : Nat)
    (h : e.unmintable = .ok (a, p)) :
    e.pool = none ∧ 0 < e.state.mints := by
  unfold RelicEntry.unmintable at h
  rcases ht : e.mint_terms with _ | terms
  · rw [ht] at h; simp at h
  · rw [ht] at h
    dsimp only at h
    split at h
    · simp at h
    · split at h
      · simp at h
      · rename_i hpool
        split at h
        · simp at h
        · exact ⟨Option.not_isSome_iff_eq_none.mp hpool, by omega⟩

theorem multiUnmintable_ok_inv (e : RelicEntry) (count : Nat)
    (rs : List (Nat × Nat)) (h : e.multiUnmintable count = .ok rs) :
    e.pool = none ∧ count ≤ e.state.mints := by
  unfold RelicEntry.multiUnmintable at h
  rcases ht : e.mint_terms with _ | terms
  · rw [ht] at h; simp at h
  · rw [ht] at h
    dsimp only at h
    split at h
    · simp at h
    · split at h
      · simp at h
      · rename_i hpool
        split at h
        · simp at h
        · exact ⟨Option.not_isSome_iff_eq_none.mp hpool, by omega⟩

theorem bumpMints_fields (e : RelicEntry) (n : Nat) :
    (bumpMints e n).state.mints = e.state.mints + n ∧
    (bumpMints e n).mint_terms = e.mint_terms ∧
    (bumpMints e n).pool = e.pool := by
  unfold bumpMints
  exact ⟨rfl, rfl, rfl⟩

theorem capOf_bump (e : RelicEntry) (n : Nat) :
    capOf (bumpMints e n) = capOf e := rfl

theorem createPoolIfCapped_inv (e : RelicEntry)
    (hle : e.state.mints ≤ capOf e)
    (hpool : e.pool.isSome → e.state.mints = capOf e) :
    poolInv (createPoolIfCapped e) := by
  unfold createPoolIfCapped poolInv
  split
  · rename_i hcond
    dsimp only
    split
    · exact ⟨hle, hpool⟩
    · refine ⟨hle, fun _ => hcond.1⟩
  · exact ⟨hle, hpool⟩

theorem createPoolIfCapped_state (e : RelicEntry) :
    (createPoolIfCapped e).state = e.state ∧
    (createPoolIfCapped e).mint_terms = e.mint_terms := by
  unfold createPoolIfCapped
  split
  · dsimp only
    split
    · exact ⟨rfl, rfl⟩
    · exact ⟨rfl, rfl⟩
  · exact ⟨rfl, rfl⟩

/-- C2: every mint-count/pool mutation of the relic updater preserves
invariant 2 (`state.mints ≤ cap`, and `pool is Some ⇒ state.mints = cap`):
single mint, multi-mint, unmint, multi-unmint, the synthetic base-token
mint (under its source assertion `mints + b ≤ cap`), and any swap
application to an existing pool.  Mint and multi-mint go through
`createPoolIfCapped`, which creates the pool exactly when the incremented
mint count reaches the cap, no pool exists yet, and both the locked base
supply and the seed are nonzero; unmint and multi-unmint are refused
while a pool exists (so a pool never observes `mints ≠ cap`). -/
theorem c2_pool_invariant_preserved :
    (∀ (cnt : Nat) (e : RelicEntry) (b : Nat) (e' : RelicEntry)
      (cnt' a p : Nat), poolInv e →
      RelicUpdater.mint cnt e b = .ok (e', cnt', a, p) →
      poolInv e' ∧ e'.state.mints = e.state.mints + 1 ∧
        e' = createPoolIfCapped (bumpMints e 1)) ∧
    (∀ (cnt : Nat) (e : RelicEntry) (b n bl : Nat) (e' : RelicEntry)
      (cnt' : Nat) (rs : List (Nat × Nat)), poolInv e →
      RelicUpdater.multiMint cnt e b n bl = .ok (e', cnt', rs) →
      poolInv e' ∧ e'.state.mints = e.state.mints + n ∧
        e' = createPoolIfCapped (bumpMints e n)) ∧
    (∀ (e : RelicEntry) (tb : Nat) (e' : RelicEntry) (a p : Nat),
      poolInv e → RelicUpdater.unmint e tb = .ok (e', a, p) →
      poolInv e' ∧ e'.pool = none) ∧
    (∀ (e : RelicEntry) (tb count bl : Nat) (e' : RelicEntry)
      (rs : List (Nat × Nat)), poolInv e →
      RelicUpdater.multiUnmint e tb count bl = .ok (e', rs) →
      poolInv e' ∧ e'.pool = none) ∧
    (∀ (e : RelicEntry) (b : Nat) (e' : RelicEntry) (amt : Nat),
      poolInv e → e.state.mints + b ≤ capOf e →
      RelicUpdater.mintBaseToken e b = some (e', amt) →
      poolInv e') ∧
    (∀ (e : RelicEntry) (p' : Pool), poolInv e → e.pool.isSome →
      poolInv { e with pool := some p' }) := by
  refine ⟨?_, ?_, ?_, ?_, ?_, ?_⟩
  · intro cnt e b e' cnt' a p hinv hok
    unfold RelicUpdater.mint at hok
    have hmain : e.mintable b = .ok (a, p) ∧
        e' = createPoolIfCapped (bumpMints e 1) := by
      rcases hmpb : e.mint_terms.bind (·.max_per_block) with _ | maxPerBlock
      · rw [hmpb] at hok
        dsimp only at hok
        rcases hm : e.mintable b with cause | pair
        · rw [hm] at hok; simp at hok
        · rw [hm] at hok
          obtain ⟨a', p'⟩ := pair
          simp only [Except.ok.injEq, Prod.mk.injEq] at hok
          obtain ⟨he, -, ha, hp⟩ := hok
          subst ha; subst hp
          exact ⟨rfl, he.symm⟩
      · rw [hmpb] at hok
        dsimp only at hok
        split at hok
        · simp at hok
        · rcases hm : e.mintable b with cause | pair
          · rw [hm] at hok; simp at hok
          · rw [hm] at hok
            obtain ⟨a', p'⟩ := pair
            simp only [Except.ok.injEq, Prod.mk.injEq] at hok
            obtain ⟨he, -, ha, hp⟩ := hok
            subst ha; subst hp
            exact ⟨rfl, he.symm⟩
    obtain ⟨hm, he⟩ := hmain
    obtain ⟨-, hlt⟩ := mintable_ok_inv e b a p hm
    have hb := bumpMints_fields e 1
    have hinv' : poolInv (createPoolIfCapped (bumpMints e 1)) := by
      apply createPoolIfCapped_inv
      · rw [hb.1, capOf_bump]; omega
      · intro hps
        rw [hb.2.2] at hps
        exact absurd (hinv.2 hps) (by omega)
    refine ⟨by rw [he]; exact hinv', ?_, he⟩
    rw [he, (createPoolIfCapped_state (bumpMints e 1)).1]
    exact hb.1
  · intro cnt e b n bl e' cnt' rs hinv hok
    unfold RelicUpdater.multiMint at hok
    have hmain : e.multiMintable b n bl = .ok rs ∧
        e' = createPoolIfCapped (bumpMints e rs.length) := by
      rcases hmpb : e.mint_terms.bind (·.max_per_block) with _ | maxPerBlock
      · rw [hmpb] at hok
        dsimp only at hok
        rcases hm : e.multiMintable b n bl with cause | results
        · rw [hm] at hok; simp at hok
        · rw [hm] at hok
          simp only [Except.ok.injEq, Prod.mk.injEq] at hok
          obtain ⟨he, -, hr⟩ := hok
          subst hr
          exact ⟨rfl, he.symm⟩
      · rw [hmpb] at hok
        dsimp only at hok
        split at hok
        · simp at hok
        · rcases hm : e.multiMintable b n bl with cause | results
          · rw [hm] at hok; simp at hok
          · rw [hm] at hok
            simp only [Except.ok.injEq, Prod.mk.injEq] at hok
            obtain ⟨he, -, hr⟩ := hok
            subst hr
            exact ⟨rfl, he.symm⟩
    obtain ⟨hm, he⟩ := hmain
    obtain ⟨-, hle, hlen⟩ := multiMintable_ok_inv e b n bl rs hm
    rw [hlen] at he
    have hb := bumpMints_fields e n
    have hinv' : poolInv (createPoolIfCapped (bumpMints e n)) := by
      apply createPoolIfCapped_inv
      · rw [hb.1, capOf_bump]; omega
      · intro hps
        rw [hb.2.2] at hps
        rw [hb.1, capOf_bump]
        have := hinv.2 hps
        omega
    refine ⟨by rw [he]; exact hinv', ?_, he⟩
    rw [he, (createPoolIfCapped_state (bumpMints e n)).1]
    exact hb.1
  · intro e tb e' a p hinv hok
    unfold RelicUpdater.unmint at hok
    rcases hu : e.unmintable with cause | pair
    · rw [hu] at hok; simp at hok
    · rw [hu] at hok
      obtain ⟨a', p'⟩ := pair
      dsimp only at hok
      split at hok
      · simp at hok
      · simp only [Except.ok.injEq, Prod.mk.injEq] at hok
        obtain ⟨he, -, -⟩ := hok
        obtain ⟨hpool, hpos⟩ := unmintable_ok_inv e a' p' hu
        constructor
        · rw [← he]
          unfold poolInv
          constructor
          · show e.state.mints - 1 ≤ capOf _
            have hcap : capOf { e with state :=
              { e.state with mints := e.state.mints - 1 } } = capOf e := rfl
            have hle := hinv.1
            rw [hcap]
            omega
          · intro hps
            rw [show ({ e with state := { e.state with
              mints := e.state.mints - 1 } } : RelicEntry).pool = e.pool
              from rfl, hpool] at hps
            simp at hps
        · rw [← he]
          exact hpool
  · intro e tb count bl e' rs hinv hok
    unfold RelicUpdater.multiUnmint at hok
    rcases hu : e.multiUnmintable count with cause | results
    · rw [hu] at hok; simp at hok
    · rw [hu] at hok
      dsimp only at hok
      split at hok
      · simp at hok
      · split at hok
        · simp at hok
        · simp only [Except.ok.injEq, Prod.mk.injEq] at hok
          obtain ⟨he, -⟩ := hok
          obtain ⟨hpool, hle⟩ := multiUnmintable_ok_inv e count results hu
          constructor
          · rw [← he]
            unfold poolInv
            constructor
            · show e.state.mints - count ≤ capOf _
              have hcap : capOf { e with state := { e.state with
                mints := e.state.mints - count } } = capOf e := rfl
              have hle2 := hinv.1
              rw [hcap]
              omega
            · intro hps
              rw [show ({ e with state := { e.state with
                mints := e.state.mints - count } } : RelicEntry).pool = e.pool
                from rfl, hpool] at hps
              simp at hps
          · rw [← he]
            exact hpool
  · intro e b e' amt hinv hassert hok
    unfold RelicUpdater.mintBaseToken at hok
    split at hok
    · simp at hok
    · rename_i hb0
      simp only [Option.some.injEq, Prod.mk.injEq] at hok
      obtain ⟨he, -⟩ := hok
      rw [← he]
      unfold poolInv
      have hf := bumpMints_fields e b
      constructor
      · rw [hf.1, capOf_bump]; omega
      · intro hps
        rw [hf.2.2] at hps
        have := hinv.2 hps
        omega
  · intro e p' hinv hpool
    unfold poolInv
    have hc : capOf { e with pool := some p' } = capOf e := rfl
    have hs : ({ e with pool := some p' } : RelicEntry).state = e.state := rfl
    rw [hc, hs]
    exact ⟨hinv.1, fun _ => hinv.2 hpool⟩

/-- The entry used by the C2 witness: one mint left before the cap, fixed
price 5, seed 100. -/
def c2WitnessEntry : RelicEntry :=
  { mint_terms := some
      { amount := some 10, cap := some 1, price := some (.fixed 5),
        seed := some 100 } }

/-- Witness for C2: a concrete mint that reaches the cap and creates the
pool. -/
theorem c2_pool_invariant_preserved_witness :
    poolInv c2WitnessEntry ∧
    RelicUpdater.mint 0 c2WitnessEntry 5 =
      .ok (createPoolIfCapped (bumpMints c2WitnessEntry 1), 0, 10, 5) ∧
    poolInv (createPoolIfCapped (bumpMints c2WitnessEntry 1)) := by
  refine ⟨⟨by decide, by decide⟩, rfl, ?_⟩
  exact (c2_pool_invariant_preserved.1 0 c2WitnessEntry 5 _ 0 10 5
    ⟨by decide, by decide⟩ rfl).1

/-! ### Swaps (src/index/updater/relics_updater.rs lines 897–1036,
src/index/relics_entry.rs lines 152–181) -/

/-- `PoolSwap` (pool.rs is not in the source tree; the four variants per
§4.4: exact-input with optional `min_output`, exact-output with optional
`max_input`). -/
inductive PoolSwap where
  | input (direction : SwapDirection) (input : Nat) (min_output : Option Nat)
  | output (direction : SwapDirection) (output : Nat) (max_input : Option Nat)
  deriving DecidableEq, Repr

/-- Modelled from the spec: `Pool::calculate` (pool.rs is not in the source
tree).  §4.4: constant-product `x·y = k` with the fee taken from the input
side; for exact input `Δq = q − k/(b + Δb·(1−f))`, for exact output
`Δb = k/(q − Δq) − b` inflated by `1/(1−f)`; slippage violations return
`Slippage`, empty or exhausted reserves (and `u128` overflow of the
product) return `InsufficientLiquidity`. -/
def Pool.calculate (pool : Pool) (swap : PoolSwap) :
    Except PoolError BalanceDiff :=
  match swap with
  | .input direction amountIn minOut =>
    let (b, q) :=
      match direction with
      | .baseToQuote => (pool.base_supply, pool.quote_supply)
      | .quoteToBase => (pool.quote_supply, pool.base_supply)
    if b = 0 ∨ q = 0 then .error .insufficientLiquidity
    else if U128MAX < b * q then .error .insufficientLiquidity
    else
      let fee := amountIn * pool.fee_percentage / 100
      let net := amountIn - fee
      let out := q - b * q / (b + net)
      if q ≤ out then .error .insufficientLiquidity
      else
        match minOut with
        | some minimum =>
          if out < minimum then .error .slippage
          else .ok ⟨direction, amountIn, out, fee⟩
        | none => .ok ⟨direction, amountIn, out, fee⟩
  | .output direction amountOut maxIn =>
    let (b, q) :=
      match direction with
      | .baseToQuote => (pool.base_supply, pool.quote_supply)
      | .quoteToBase => (pool.quote_supply, pool.base_supply)
    if b = 0 ∨ q = 0 then .error .insufficientLiquidity
    else if U128MAX < b * q then .error .insufficientLiquidity
    else if q ≤ amountOut then .error .insufficientLiquidity
    else
      let net := b * q / (q - amountOut) - b
      let gross := net * 100 / (100 - pool.fee_percentage)
      if U128MAX < gross then .error .insufficientLiquidity
      else
        let fee := gross - net
        match maxIn with
        | some maximum =>
          if maximum < gross then .error .slippage
          else .ok ⟨direction, gross, amountOut, fee⟩
        | none => .ok ⟨direction, gross, amountOut, fee⟩

/-- `RelicEntry::swap` (src/index/relics_entry.rs lines 152–181): fail when
no pool exists, when `swap_height` is not yet reached, when the pool math
fails, or when a given balance cannot cover the computed input. -/
def RelicEntry.swap (e : RelicEntry) (swap : PoolSwap) (balance : Option Nat)
    (height : Nat) : Except RelicError BalanceDiff :=
  match e.pool with
  | none => .error .swapNotAvailable
  | some pool =>
    let afterHeight : Except RelicError BalanceDiff :=
      match pool.calculate swap with
      | .ok diff =>
        match balance with
        | some bal =>
          if bal < diff.input then .error (.swapInsufficientBalance diff.input)
          else .ok diff
        | none => .ok diff
      | .error cause => .error (.swapFailed cause)
    match e.mint_terms.bind (·.swap_height) with
    | some swapHeight =>
      if height < swapHeight then .error (.swapHeightNotReached swapHeight)
      else afterHeight
    | none => afterHeight

/-- The `simple_swap` closure of `swap_calculate`. -/
def simpleSwap (swap : Swap) (direction : SwapDirection) : PoolSwap :=
  if swap.is_exact_input then
    .input direction (swap.input_amount.getD 0) swap.output_amount
  else
    .output direction (swap.output_amount.getD 0) swap.input_amount

/-- `RelicUpdater::swap_calculate` (relics_updater.rs lines 938–1036). -/
def RelicUpdater.swapCalculate (height : Nat) (swap : Swap)
    (input : RelicId) (input_entry : Option RelicEntry) (output : RelicId)
    (output_entry : Option RelicEntry) (input_balance : Nat) :
    Except RelicError (Option BalanceDiff × Option BalanceDiff) :=
  match input_entry with
  | none => .error (.relicNotFound input)
  | some ie =>
    match output_entry with
    | none => .error (.relicNotFound output)
    | some oe =>
      if input = RELIC_ID then
        (oe.swap (simpleSwap swap .baseToQuote) (some input_balance)
          height).map fun d => (none, some d)
      else if output = RELIC_ID then
        (ie.swap (simpleSwap swap .quoteToBase) (some input_balance)
          height).map fun d => (some d, none)
      else
        if swap.is_exact_input then
          match ie.swap (.input .quoteToBase (swap.input_amount.getD 0) none)
            (some input_balance) height with
          | .error cause => .error cause
          | .ok diffSell =>
            match oe.swap (.input .baseToQuote diffSell.output
              swap.output_amount) none height with
            | .error cause => .error cause
            | .ok diffBuy => .ok (some diffSell, some diffBuy)
        else
          match oe.swap (.output .baseToQuote (swap.output_amount.getD 0)
            none) none height with
          | .error cause => .error cause
          | .ok diffBuy =>
            match ie.swap (.output .quoteToBase diffBuy.input
              swap.input_amount) (some input_balance) height with
            | .error cause => .error cause
            | .ok diffSell => .ok (some diffSell, some diffBuy)

/-- The pool mutation of `swap_apply` (relics_updater.rs lines 1063–1098)
on one entry: `entry.pool.as_mut().unwrap().apply(diff)` plus the table
write; fee routing leaves the entry untouched. -/
def swapApplyEntry (e : RelicEntry) (diff : BalanceDiff) : RelicEntry :=
  { e with pool := e.pool.map (·.apply diff) }

/-- `RelicUpdater::swap` (relics_updater.rs lines 897–936) restricted to
the relic-entry table: calculate both legs, apply the sell leg to the
input entry and the buy leg to the output entry, and report
`(input_amount, output_amount)`; on a calculation error nothing is
written. -/
def RelicUpdater.swapOp (entries : RelicId → Option RelicEntry)
    (height : Nat) (swap : Swap) (input output : RelicId)
    (input_balance : Nat) :
    (RelicId → Option RelicEntry) × Except RelicError (Nat × Nat) :=
  match RelicUpdater.swapCalculate height swap input (entries input) output
    (entries output) input_balance with
  | .error cause => (entries, .error cause)
  | .ok (sell, buy) =>
    let entries1 :=
      match sell with
      | some diff => fun id =>
        if id = input then (entries input).map (swapApplyEntry · diff)
        else entries id
      | none => entries
    let entries2 :=
      match buy with
      | some diff => fun id =>
        if id = output then (entries1 output).map (swapApplyEntry · diff)
        else entries1 id
      | none => entries1
    let result :=
      match sell, buy with
      | some s, none => (s.input, s.output)
      | none, some b => (b.input, b.output)
      | some s, some b => (s.input, b.output)
      | none, none => (0, 0)
    (entries2, .ok result)

/-- C7: a swap between two non-base relics decomposes into a sell leg
(input relic → base, `QuoteToBase`) and a buy leg (base → output relic,
`BaseToQuote`) through the base token; the caller's slippage bound
(`min_output` for exact-input, `max_input` for exact-output) is passed
only to the second leg of the computation while the first computed leg
carries `none`; and when either leg (or any part of the calculation)
fails, the relic-entry table is left untouched and the error is
reported. -/
theorem c7_dual_swap :
    (∀ (entries : RelicId → Option RelicEntry) (height : Nat) (swap : Swap)
      (input output : RelicId) (bal : Nat) (cause : RelicError),
      RelicUpdater.swapCalculate height swap input (entries input) output
        (entries output) bal = .error cause →
      RelicUpdater.swapOp entries height swap input output bal =
        (entries, .error cause)) ∧
    (∀ (height : Nat) (swap : Swap) (input output : RelicId)
      (ie oe : RelicEntry) (bal : Nat),
      input ≠ RELIC_ID → output ≠ RELIC_ID → swap.is_exact_input = true →
      RelicUpdater.swapCalculate height swap input (some ie) output
        (some oe) bal =
        match ie.swap (.input .quoteToBase (swap.input_amount.getD 0) none)
          (some bal) height with
        | .error cause => .error cause
        | .ok diffSell =>
          match oe.swap (.input .baseToQuote diffSell.output
            swap.output_amount) none height with
          | .error cause => .error cause
          | .ok diffBuy => .ok (some diffSell, some diffBuy)) ∧
    (∀ (height : Nat) (swap : Swap) (input output : RelicId)
      (ie oe : RelicEntry) (bal : Nat),
      input ≠ RELIC_ID → output ≠ RELIC_ID → swap.is_exact_input = false →
      RelicUpdater.swapCalculate height swap input (some ie) output
        (some oe) bal =
        match oe.swap (.output .baseToQuote (swap.output_amount.getD 0)
          none) none height with
        | .error cause => .error cause
        | .ok diffBuy =>
          match ie.swap (.output .quoteToBase diffBuy.input
            swap.input_amount) (some bal) height with
          | .error cause => .error cause
          | .ok diffSell => .ok (some diffSell, some diffBuy)) := by
  refine ⟨?_, ?_, ?_⟩
  · intro entries height swap input output bal cause hcalc
    unfold RelicUpdater.swapOp
    rw [hcalc]
  · intro height swap input output ie oe bal hin hout hexact
    unfold RelicUpdater.swapCalculate
    dsimp only
    rw [if_neg hin, if_neg hout, if_pos hexact]
  · intro height swap input output ie oe bal hin hout hexact
    unfold RelicUpdater.swapCalculate
    dsimp only
    rw [if_neg hin, if_neg hout, if_neg (by simp [hexact])]

/-- Witness for C7: swapping unknown relics mutates nothing and reports
`RelicNotFound`. -/
theorem c7_dual_swap_witness :
    RelicUpdater.swapOp (fun _ => none) 0 {} ⟨2, 0⟩ ⟨3, 0⟩ 0 =
      ((fun _ => none), .error (.relicNotFound ⟨2, 0⟩)) :=
  c7_dual_swap.1 (fun _ => none) 0 {} ⟨2, 0⟩ ⟨3, 0⟩ 0
    (.relicNotFound ⟨2, 0⟩) rfl

/-! ### Chest release (src/index/updater/relics_updater.rs lines 844–895) -/

/-- `ChestEntry` (src/index/chest_entry.rs). -/
structure ChestEntry where
  sequence_number : Nat
  syndicate : RelicId
  created_block : Nat
  amount : Nat
  deriving DecidableEq, Repr

/-- `SyndicateEntry` (src/index/syndicate_entry.rs); the summoning txid is
opaque. -/
structure SyndicateEntry where
  summoning : Nat := 0
  sequence_number : Nat := 0
  treasure : RelicId := RELIC_ID
  height : Option Nat × Option Nat := (none, none)
  cap : Option Nat := none
  quota : Nat := 0
  royalty : Nat := 0
  gated : Bool := false
  lock : Option Nat := none
  reward : Option Nat := none
  turbo : Bool := false
  chests : Nat := 0
  deriving DecidableEq, Repr

/-- The chest-related tables touched by `release_chest`. -/
structure ChestState where
  sequence_number_to_chest : Nat → Option ChestEntry
  id_to_syndicate : RelicId → Option SyndicateEntry
  syndicate_to_chest_sequence_number : List (RelicId × Nat)

/-- `RelicUpdater::release_chest` (relics_updater.rs lines 844–895): the
first inscription on the outputs identifies the chest; before
`created_block + lock` the release fails with `ChestLocked`; at or after
it the chest record is destroyed (chest table, syndicate multimap,
syndicate chest count) and `(treasure relic, chest.amount)` is returned
for the caller to credit to the transaction's balances.  The source
panics when the chest's syndicate is missing or its chest count is
already zero; those paths are `none`. -/
def RelicUpdater.releaseChest (st : ChestState) (height : Nat)
    (firstInscription : Option Nat) :
    Option (ChestState × Except RelicError (RelicId × Nat)) :=
  match firstInscription with
  | none => some (st, .error .inscriptionMissing)
  | some seq =>
    match st.sequence_number_to_chest seq with
    | none => some (st, .error .chestNotFound)
    | some chest =>
      match st.id_to_syndicate chest.syndicate with
      | none => none
      | some syndicate =>
        let unlockHeight := chest.created_block + syndicate.lock.getD 0
        if height < unlockHeight then
          some (st, .error (.chestLocked unlockHeight))
        else if syndicate.chests = 0 then none
        else
          some
            (⟨fun s =>
                if s = chest.sequence_number then none
                else st.sequence_number_to_chest s,
              fun id =>
                if id = chest.syndicate then
                  some { syndicate with chests := syndicate.chests - 1 }
                else st.id_to_syndicate id,
              st.syndicate_to_chest_sequence_number.filter fun p =>
                ¬ (p.1 = chest.syndicate ∧ p.2 = chest.sequence_number)⟩,
            .ok (syndicate.treasure, chest.amount))

/-- C8: before `created_block + lock` a chest release fails with
`ChestLocked(created_block + lock)` leaving every table unchanged; at or
after that height the chest record is destroyed — removed from the chest
table and the syndicate multimap, the syndicate's chest count
decremented — and `chest.amount` of the syndicate's treasure relic is
returned for crediting to the transaction's balances. -/
theorem c8_chest_release :
    (∀ (st : ChestState) (height seq : Nat) (chest : ChestEntry)
      (syndicate : SyndicateEntry),
      st.sequence_number_to_chest seq = some chest →
      st.id_to_syndicate chest.syndicate = some syndicate →
      height < chest.created_block + syndicate.lock.getD 0 →
      RelicUpdater.releaseChest st height (some seq) =
        some (st, .error (.chestLocked
          (chest.created_block + syndicate.lock.getD 0)))) ∧
    (∀ (st : ChestState) (height seq : Nat) (chest : ChestEntry)
      (syndicate : SyndicateEntry),
      st.sequence_number_to_chest seq = some chest →
      st.id_to_syndicate chest.syndicate = some syndicate →
      chest.created_block + syndicate.lock.getD 0 ≤ height →
      syndicate.chests ≠ 0 →
      ∃ st', RelicUpdater.releaseChest st height (some seq) =
          some (st', .ok (syndicate.treasure, chest.amount)) ∧
        st'.sequence_number_to_chest chest.sequence_number = none ∧
        (∀ s, s ≠ chest.sequence_number →
          st'.sequence_number_to_chest s = st.sequence_number_to_chest s) ∧
        st'.id_to_syndicate chest.syndicate =
          some { syndicate with chests := syndicate.chests - 1 } ∧
        (∀ id, id ≠ chest.syndicate →
          st'.id_to_syndicate id = st.id_to_syndicate id) ∧
        st'.syndicate_to_chest_sequence_number =
          st.syndicate_to_chest_sequence_number.filter fun p =>
            ¬ (p.1 = chest.syndicate ∧ p.2 = chest.sequence_number)) := by
  constructor
  · intro st height seq chest syndicate hchest hsynd hlock
    unfold RelicUpdater.releaseChest
    dsimp only
    rw [hchest]
    dsimp only
    rw [hsynd]
    dsimp only
    rw [if_pos hlock]
  · intro st height seq chest syndicate hchest hsynd hunlock hcount
    unfold RelicUpdater.releaseChest
    dsimp only
    rw [hchest]
    dsimp only
    rw [hsynd]
    dsimp only
    rw [if_neg (by omega), if_neg hcount]
    refine ⟨_, rfl, ?_, ?_, ?_, ?_, rfl⟩
    · simp
    · intro s hs
      simp [hs]
    · simp
    · intro id hid
      simp [hid]

/-- Witness for C8 at a one-chest state: locked at height 5, released at
height 10. -/
theorem c8_chest_release_witness :
    RelicUpdater.releaseChest
      ⟨fun s => if s = 7 then some ⟨7, ⟨2, 0⟩, 4, 100⟩ else none,
        fun id => if id = ⟨2, 0⟩ then some { lock := some 6, chests := 1 }
          else none, [(⟨2, 0⟩, 7)]⟩ 5 (some 7) =
      some (⟨fun s => if s = 7 then some ⟨7, ⟨2, 0⟩, 4, 100⟩ else none,
        fun id => if id = ⟨2, 0⟩ then some { lock := some 6, chests := 1 }
          else none, [(⟨2, 0⟩, 7)]⟩, .error (.chestLocked 10)) ∧
    (∃ st', RelicUpdater.releaseChest
      ⟨fun s => if s = 7 then some ⟨7, ⟨2, 0⟩, 4, 100⟩ else none,
        fun id => if id = ⟨2, 0⟩ then some { lock := some 6, chests := 1 }
          else none, [(⟨2, 0⟩, 7)]⟩ 10 (some 7) =
        some (st', .ok (RELIC_ID, 100)) ∧
      st'.sequence_number_to_chest 7 = none ∧
      (∀ s, s ≠ 7 → st'.sequence_number_to_chest s =
        (if s = 7 then some ⟨7, ⟨2, 0⟩, 4, 100⟩ else none)) ∧
      st'.id_to_syndicate ⟨2, 0⟩ =
        some { lock := some 6, chests := 0 } ∧
      (∀ id, id ≠ (⟨2, 0⟩ : RelicId) → st'.id_to_syndicate id =
        (if id = ⟨2, 0⟩ then some { lock := some 6, chests := 1 }
          else none)) ∧
      st'.syndicate_to_chest_sequence_number =
        ([(⟨2, 0⟩, 7)] : List (RelicId × Nat)).filter fun p =>
          ¬ (p.1 = ⟨2, 0⟩ ∧ p.2 = 7)) := by
  constructor
  · exact c8_chest_release.1 _ 5 7 ⟨7, ⟨2, 0⟩, 4, 100⟩
      { lock := some 6, chests := 1 } (by simp) (by simp) (by decide)
  · exact c8_chest_release.2 _ 10 7 ⟨7, ⟨2, 0⟩, 4, 100⟩
      { lock := some 6, chests := 1 } (by simp) (by simp) (by decide)
      (by decide)

/-! ### Mint dispatch in `index_relics`
(src/index/updater/relics_updater.rs lines 107–127 and 193–268) -/

/-- `RelicId::default()`: block 0, tx 0. -/
def RelicId.default : RelicId := ⟨0, 0⟩

/-- The events emitted by the mint paths of `index_relics`. -/
inductive RelicEvent where
  | relicMinted (id : RelicId) (amount : Nat)
  | relicMultiMinted (id : RelicId) (amount numMints baseLimit : Nat)
  | relicError (error : RelicError)
  deriving DecidableEq, Repr

/-- The state touched by the mint paths of `index_relics`: the relic
entries, the per-block mint counters, the transaction's running balances
and the emitted events. -/
structure MintDispatchState where
  entries : RelicId → Option RelicEntry
  mintsInBlock : RelicId → Nat
  balances : RelicId → Nat
  events : List RelicEvent

/-- `RelicUpdater::mint` at the table level plus its caller's balance
updates (relics_updater.rs lines 110–126 and 1140–1213): look the entry
up (`RelicNotFound` otherwise), run the per-entry mint, and on success
debit the price from the base balance, credit the minted amount, and
emit `RelicMinted`; on error emit a `RelicError` event and change
nothing else.  The `assert_ne!(id, RELIC_ID)` panic is `none`. -/
def RelicUpdater.mintById (st : MintDispatchState) (id : RelicId) :
    Option MintDispatchState :=
  if id = RELIC_ID then none
  else
    match st.entries id with
    | none => some { st with
        events := st.events ++ [.relicError (.relicNotFound id)] }
    | some e =>
      match RelicUpdater.mint (st.mintsInBlock id) e (st.balances RELIC_ID)
          with
      | .error cause => some { st with
          events := st.events ++ [.relicError cause] }
      | .ok (e', cnt', amount, price) =>
        some { st with
          entries := fun i => if i = id then some e' else st.entries i,
          mintsInBlock := fun i =>
            if i = id then cnt' else st.mintsInBlock i,
          balances := fun i =>
            if i = RELIC_ID then st.balances RELIC_ID - price
            else if i = id then st.balances i + amount
            else st.balances i,
          events := st.events ++ [.relicMinted id amount] }

/-- `RelicUpdater::multi_mint` at the table level plus its caller's
balance updates (relics_updater.rs lines 246–268 and 1215–1287):
aggregate the per-mint lots, debit the total base price, credit the
total minted amount and emit `RelicMultiMinted`; on error emit a
`RelicError` event and change nothing else. -/
def RelicUpdater.multiMintById (st : MintDispatchState) (id : RelicId)
    (count base_limit : Nat) : Option MintDispatchState :=
  if id = RELIC_ID then none
  else
    match st.entries id with
    | none => some { st with
        events := st.events ++ [.relicError (.relicNotFound id)] }
    | some e =>
      match RelicUpdater.multiMint (st.mintsInBlock id) e
          (st.balances RELIC_ID) count base_limit with
      | .error cause => some { st with
          events := st.events ++ [.relicError cause] }
      | .ok (e', cnt', results) =>
        let totalRelic := (results.map (·.1)).sum
        let totalBase := (results.map (·.2)).sum
        some { st with
          entries := fun i => if i = id then some e' else st.entries i,
          mintsInBlock := fun i =>
            if i = id then cnt' else st.mintsInBlock i,
          balances := fun i =>
            if i = RELIC_ID then st.balances RELIC_ID - totalBase
            else if i = id then st.balances i + totalRelic
            else st.balances i,
          events := st.events ++
            [.relicMultiMinted id totalRelic count base_limit] }

/-- The `keepsake.mint` dispatch of `index_relics` (relics_updater.rs
lines 107–127): a default relic id is replaced by the relic enshrined in
the same transaction, and when there is none the whole operation is
skipped without an event. -/
def RelicUpdater.processMint (st : MintDispatchState)
    (enshrinedRelic : Option RelicId) (keepsakeMint : Option RelicId) :
    Option MintDispatchState :=
  match keepsakeMint with
  | none => some st
  | some id₀ =>
    match if id₀ = RelicId.default then enshrinedRelic else some id₀ with
    | none => some st
    | some id => RelicUpdater.mintById st id

/-- The `keepsake.multi_mint` dispatch of `index_relics`
(relics_updater.rs lines 193–268): same default-id replacement; the
unmint variant is refused with `UnmintNotAllowed` when a relic was
enshrined in the transaction, otherwise it runs `multi_unmint` with the
minted token's own balance. -/
def RelicUpdater.processMultiMint (st : MintDispatchState)
    (enshrinedRelic : Option RelicId) (multi : Option MultiMint) :
    Option MintDispatchState :=
  match multi with
  | none => some st
  | some m =>
    match if m.relic = RelicId.default then enshrinedRelic
        else some m.relic with
    | none => some st
    | some id =>
      if m.is_unmint then
        if enshrinedRelic.isSome then
          some { st with
            events := st.events ++ [.relicError .unmintNotAllowed] }
        else if id = RELIC_ID then none
        else
          match st.entries id with
          | none => some { st with
              events := st.events ++ [.relicError (.relicNotFound id)] }
          | some e =>
            match RelicUpdater.multiUnmint e (st.balances id) m.count
                m.base_limit with
            | .error cause => some { st with
                events := st.events ++ [.relicError cause] }
            | .ok (e', results) =>
              let totalRelic := (results.map (·.1)).sum
              let totalBase := (results.map (·.2)).sum
              some { st with
                entries := fun i => if i = id then some e' else st.entries i,
                balances := fun i =>
                  if i = id then st.balances i - totalRelic
                  else if i = RELIC_ID then st.balances RELIC_ID + totalBase
                  else st.balances i,
                events := st.events ++
                  [.relicMultiMinted id totalRelic m.count m.base_limit] }
      else RelicUpdater.multiMintById st id m.count m.base_limit

/-- C10: a mint or multi-mint naming the default relic id `(0, 0)` acts
on the relic enshrined in the same transaction when there is one —
exactly as if it had named that relic directly — and when no relic was
enshrined it is silently skipped: the state, balances and event list
are returned unchanged, with no error event. -/
theorem c10_default_mint_dispatch :
    (∀ (st : MintDispatchState) (id : RelicId),
      RelicUpdater.processMint st (some id) (some RelicId.default) =
        RelicUpdater.mintById st id) ∧
    (∀ st : MintDispatchState,
      RelicUpdater.processMint st none (some RelicId.default) = some st) ∧
    (∀ (st : MintDispatchState) (id : RelicId) (m : MultiMint),
      m.relic = RelicId.default → m.is_unmint = false →
      RelicUpdater.processMultiMint st (some id) (some m) =
        RelicUpdater.multiMintById st id m.count m.base_limit) ∧
    (∀ (st : MintDispatchState) (m : MultiMint),
      m.relic = RelicId.default →
      RelicUpdater.processMultiMint st none (some m) = some st) := by
  refine ⟨fun st id => rfl, fun st => rfl, ?_, ?_⟩
  · intro st id m hrelic hunmint
    unfold RelicUpdater.processMultiMint
    dsimp only
    rw [if_pos hrelic]
    dsimp only
    rw [hunmint]
    rfl
  · intro st m hrelic
    unfold RelicUpdater.processMultiMint
    dsimp only
    rw [if_pos hrelic]

/-- Witness for C10 at an empty table: a default-id multi-mint with an
enshrined relic equals the direct multi-mint of that relic, and without
one it returns the state unchanged. -/
theorem c10_default_mint_dispatch_witness :
    RelicUpdater.processMultiMint ⟨fun _ => none, fun _ => 0, fun _ => 0,
        []⟩ (some ⟨3, 1⟩) (some ⟨2, 50, RelicId.default, false⟩) =
      RelicUpdater.multiMintById ⟨fun _ => none, fun _ => 0, fun _ => 0,
        []⟩ ⟨3, 1⟩ 2 50 ∧
    RelicUpdater.processMultiMint ⟨fun _ => none, fun _ => 0, fun _ => 0,
        []⟩ none (some ⟨2, 50, RelicId.default, false⟩) =
      some ⟨fun _ => none, fun _ => 0, fun _ => 0, []⟩ :=
  ⟨c10_default_mint_dispatch.2.2.1 _ ⟨3, 1⟩ ⟨2, 50, RelicId.default, false⟩
      rfl rfl,
    c10_default_mint_dispatch.2.2.2 _ ⟨2, 50, RelicId.default, false⟩ rfl⟩

/-! ### Default allocation at the end of `index_relics`
(src/index/updater/relics_updater.rs lines 366–402) -/

/-- Modelled from the spec: the balance sheet of §4.7
(relics_balance.rs is not in the source tree).  `remaining` holds the
balances not yet allocated to an output (inputs plus mint proceeds minus
spends), `allocated` the per-output buckets written by `allocate`,
`allocate_all` and `allocate_transfers`, and `burned` what `burn` and
`burn_all` accumulated for finalization. -/
structure RelicsBalance where
  remaining : List (RelicId × Nat)
  allocated : List (Nat × RelicId × Nat)
  burned : List (RelicId × Nat)
  deriving DecidableEq, Repr

/-- Modelled from the spec, §4.7: `allocate_all(output_idx)` moves every
remaining balance into the bucket of output `vout`. -/
def RelicsBalance.allocate_all (b : RelicsBalance) (vout : Nat) :
    RelicsBalance :=
  { b with
    remaining := [],
    allocated := b.allocated ++ b.remaining.map fun p => (vout, p.1, p.2) }

/-- Modelled from the spec, §4.7: `burn_all()` moves every remaining
balance to the burn counters; no output bucket is touched. -/
def RelicsBalance.burn_all (b : RelicsBalance) : RelicsBalance :=
  { b with remaining := [], burned := b.burned ++ b.remaining }

/-- The `first_non_op_return_output` closure of `index_relics`
(relics_updater.rs lines 366–372). -/
def firstNonOpReturnOutput (tx : Transaction) : Option Nat :=
  tx.output.findIdx? fun o => ¬ o.isOpReturn

/-- The `default_output` match of `index_relics` (relics_updater.rs
lines 374–384). -/
def defaultOutput (artifact : Option RelicArtifact) (tx : Transaction) :
    Option Nat :=
  match artifact with
  | none => firstNonOpReturnOutput tx
  | some (.keepsake keepsake) =>
    match keepsake.pointer with
    | some pointer => some pointer
    | none => firstNonOpReturnOutput tx
  | some (.cenotaph _) => none

/-- The tail of `index_relics` (relics_updater.rs lines 386–391):
route everything still unallocated to the default output, or burn it
all when there is none. -/
def routeDefault (b : RelicsBalance) (artifact : Option RelicArtifact)
    (tx : Transaction) : RelicsBalance :=
  match defaultOutput artifact tx with
  | some vout => b.allocate_all vout
  | none => b.burn_all

/-- C3: after all operations the unallocated balances go to the pointer
output when the Keepsake names one, otherwise — and also when the
transaction carries no protocol message — to the first non-OP_RETURN
output; `allocate_all` empties `remaining` into exactly that output's
bucket.  A Cenotaph routes nothing: `burn_all` burns every remaining
input balance and no output bucket receives anything. -/
theorem c3_default_allocation :
    (∀ (b : RelicsBalance) (tx : Transaction) (k : Keepsake) (p : Nat),
      k.pointer = some p →
      routeDefault b (some (.keepsake k)) tx = b.allocate_all p) ∧
    (∀ (b : RelicsBalance) (tx : Transaction) (k : Keepsake),
      k.pointer = none →
      routeDefault b (some (.keepsake k)) tx = routeDefault b none tx) ∧
    (∀ (b : RelicsBalance) (tx : Transaction) (v : Nat),
      firstNonOpReturnOutput tx = some v →
      routeDefault b none tx = b.allocate_all v) ∧
    (∀ (b : RelicsBalance) (vout : Nat),
      (b.allocate_all vout).remaining = [] ∧
      (b.allocate_all vout).allocated =
        b.allocated ++ b.remaining.map (fun p => (vout, p.1, p.2)) ∧
      (b.allocate_all vout).burned = b.burned) ∧
    (∀ (b : RelicsBalance) (tx : Transaction) (flaw : Option RelicFlaw),
      routeDefault b (some (.cenotaph flaw)) tx = b.burn_all ∧
      b.burn_all.remaining = [] ∧
      b.burn_all.allocated = b.allocated ∧
      b.burn_all.burned = b.burned ++ b.remaining) := by
  refine ⟨?_, ?_, ?_, fun b vout => ⟨rfl, rfl, rfl⟩,
    fun b tx flaw => ⟨rfl, rfl, rfl, rfl⟩⟩
  · intro b tx k p hp
    unfold routeDefault defaultOutput
    dsimp only
    rw [hp]
  · intro b tx k hp
    unfold routeDefault defaultOutput
    dsimp only
    rw [hp]
  · intro b tx v hv
    unfold routeDefault defaultOutput
    dsimp only
    rw [hv]

/-- Witness for C3: one remaining balance of relic (2, 0); a keepsake
with pointer 1 allocates it to output 1, and on a two-output
transaction whose first output is OP_RETURN the no-message route sends
it to output 1 as well. -/
theorem c3_default_allocation_witness :
    routeDefault ⟨[(⟨2, 0⟩, 1000)], [], []⟩
        (some (.keepsake { pointer := some 1 })) ⟨[]⟩ =
      RelicsBalance.allocate_all ⟨[(⟨2, 0⟩, 1000)], [], []⟩ 1 ∧
    routeDefault ⟨[(⟨2, 0⟩, 1000)], [], []⟩ none
        ⟨[⟨0, [.op OP_RETURN]⟩, ⟨5, []⟩]⟩ =
      RelicsBalance.allocate_all ⟨[(⟨2, 0⟩, 1000)], [], []⟩ 1 :=
  ⟨c3_default_allocation.1 ⟨[(⟨2, 0⟩, 1000)], [], []⟩ ⟨[]⟩
      { pointer := some 1 } 1 rfl,
    c3_default_allocation.2.2.1 ⟨[(⟨2, 0⟩, 1000)], [], []⟩
      ⟨[⟨0, [.op OP_RETURN]⟩, ⟨5, []⟩]⟩ 1 rfl⟩

/-! ### Relic names (src/relics/relic.rs lines 81–127)

Strings are embedded as lists of Unicode code points; an uppercase
letter is a code point in `65..=90`. -/

/-- `Relic(pub u128)` (relic.rs). -/
structure Relic where
  n : Nat
  deriving DecidableEq, Repr

/-- The alphabet literal `"ABCDEFGHIJKLMNOPQRSTUVWXYZ"` of
`Display for Relic`, as code points. -/
def relicAlphabet : List Nat :=
  [65, 66, 67, 68, 69, 70, 71, 72, 73, 74, 75, 76, 77, 78, 79, 80, 81,
    82, 83, 84, 85, 86, 87, 88, 89, 90]

/-- The hardcoded display of `u128::MAX`,
`"BCGDENLQRQWDSLRUGSNLBTMFIJAV"` (relic.rs line 85), as code points. -/
def relicMaxSymbol : List Nat :=
  [66, 67, 71, 68, 69, 78, 76, 81, 82, 81, 87, 68, 83, 76, 82, 85, 71,
    83, 78, 76, 66, 84, 77, 70, 73, 74, 65, 86]

/-- The `while n > 0` loop of `Display for Relic` (relic.rs lines
89–97), fuel-indexed: each round pushes the alphabet character at
`(n - 1) % 26` and continues with `(n - 1) / 26`, so the produced list
is least significant first. -/
def symbolGoF : Nat → Nat → List Nat
  | 0, _ => []
  | _ + 1, 0 => []
  | fuel + 1, n + 1 => relicAlphabet.getD (n % 26) 0 :: symbolGoF fuel (n / 26)

/-- `Display for Relic` (relic.rs lines 81–106): `u128::MAX` is
special-cased to a fixed string; any other `n` is written as the
bijective base-26 symbols of `n + 1`, most significant first. -/
def Relic.display (r : Relic) : List Nat :=
  if r.n = U128MAX then relicMaxSymbol
  else (symbolGoF (r.n + 1) (r.n + 1)).reverse

/-- `relic::Error` (relic.rs): a non-alphabet character, or `u128`
range overflow. -/
inductive RelicNameError where
  | character (c : Nat)
  | range
  deriving DecidableEq, Repr

/-- The fold of `FromStr for Relic` (relic.rs lines 112–125): from the
second character on `x` is first incremented (checked), then multiplied
by 26 (checked), then the character — which must be `A`–`Z` — is added
(checked). -/
def fromStrGo : List Nat → Nat → Nat → Except RelicNameError Nat
  | [], x, _ => .ok x
  | c :: cs, x, i =>
    match if 0 < i then checkedAdd128 x 1 else some x with
    | none => .error .range
    | some x1 =>
      match checkedMul128 x1 26 with
      | none => .error .range
      | some x2 =>
        if 65 ≤ c ∧ c ≤ 90 then
          match checkedAdd128 x2 (c - 65) with
          | none => .error .range
          | some x3 => fromStrGo cs x3 (i + 1)
        else .error (.character c)

/-- `FromStr for Relic` (relic.rs lines 108–127). -/
def Relic.fromStr (s : List Nat) : Except RelicNameError Relic :=
  (fromStrGo s 0 0).map Relic.mk

/-- The value of a least-significant-first bijective base-26 symbol
list. -/
def valLE : List Nat → Nat
  | [] => 0
  | c :: cs => (c - 65) + 1 + 26 * valLE cs

/-- The running value of the `from_str` fold after the first
character. -/
def foldVal : List Nat → Nat → Nat
  | [], x => x
  | c :: cs, x => foldVal cs ((x + 1) * 26 + (c - 65))

theorem relicAlphabet_getD : ∀ d, d < 26 → relicAlphabet.getD d 0 = 65 + d := by
  decide

theorem valLE_append_singleton (ds : List Nat) (c : Nat) :
    valLE (ds ++ [c]) = valLE ds + ((c - 65) + 1) * 26 ^ ds.length := by
  induction ds with
  | nil => simp [valLE]
  | cons d ds ih =>
    simp only [List.cons_append, List.length_cons, pow_succ]
    simp only [valLE]
    rw [ih]
    ring

theorem foldVal_ge (s : List Nat) : ∀ x, x ≤ foldVal s x := by
  induction s with
  | nil => intro x; exact Nat.le_refl x
  | cons c cs ih =>
    intro x
    have h := ih ((x + 1) * 26 + (c - 65))
    simp only [foldVal]
    omega

theorem foldVal_eq_valLE (s : List Nat) :
    ∀ x, foldVal s x + 1 = valLE s.reverse + (x + 1) * 26 ^ s.length := by
  induction s with
  | nil => intro x; simp [foldVal, valLE]
  | cons c cs ih =>
    intro x
    simp only [foldVal]
    rw [ih]
    have h2 : (c :: cs).reverse = cs.reverse ++ [c] := by simp
    rw [h2, valLE_append_singleton]
    simp only [List.length_reverse, List.length_cons, pow_succ]
    ring

theorem foldVal_cons_valLE (c : Nat) (cs : List Nat) :
    foldVal cs (c - 65) + 1 = valLE (c :: cs).reverse := by
  rw [foldVal_eq_valLE]
  have h2 : (c :: cs).reverse = cs.reverse ++ [c] := by simp
  rw [h2, valLE_append_singleton]
  simp [List.length_reverse]

theorem pow_le_valLE (s : List Nat) : 26 ^ s.length ≤ 25 * valLE s + 1 := by
  induction s with
  | nil => simp
  | cons c cs ih =>
    simp only [List.length_cons, pow_succ, valLE]
    have := Nat.mul_le_mul_left 26 ih
    omega

theorem symbolGoF_zero (fuel : Nat) : symbolGoF fuel 0 = [] := by
  cases fuel <;> rfl

theorem valLE_symbolGoF : ∀ fuel m, m ≤ fuel → valLE (symbolGoF fuel m) = m := by
  intro fuel
  induction fuel with
  | zero => intro m hm; interval_cases m; rfl
  | succ fuel ih =>
    intro m hm
    match m with
    | 0 => rw [symbolGoF_zero]; rfl
    | n + 1 =>
      have hd : n % 26 < 26 := Nat.mod_lt n (by omega)
      have hgetD := relicAlphabet_getD (n % 26) hd
      have hdiv : n / 26 ≤ fuel :=
        Nat.le_trans (Nat.div_le_self n 26) (by omega)
      simp only [symbolGoF, valLE, hgetD, ih (n / 26) hdiv]
      have := Nat.div_add_mod n 26
      omega

theorem symbolGoF_mem : ∀ fuel m c, c ∈ symbolGoF fuel m →
    65 ≤ c ∧ c ≤ 90 := by
  intro fuel
  induction fuel with
  | zero => intro m c hc; simp [symbolGoF] at hc
  | succ fuel ih =>
    intro m c hc
    match m with
    | 0 => rw [symbolGoF_zero] at hc; simp at hc
    | n + 1 =>
      simp only [symbolGoF, List.mem_cons] at hc
      rcases hc with hc | hc
      · have hd : n % 26 < 26 := Nat.mod_lt n (by omega)
        rw [hc, relicAlphabet_getD (n % 26) hd]
        omega
      · exact ih _ _ hc

theorem symbolGoF_valLE : ∀ (ds : List Nat) (fuel : Nat),
    (∀ c ∈ ds, 65 ≤ c ∧ c ≤ 90) → valLE ds ≤ fuel →
    symbolGoF fuel (valLE ds) = ds := by
  intro ds
  induction ds with
  | nil => intro fuel _ _; exact symbolGoF_zero fuel
  | cons c cs ih =>
    intro fuel hvalid hle
    have hc := hvalid c (List.mem_cons_self c cs)
    have hval : valLE (c :: cs) = (c - 65) + 26 * valLE cs + 1 := by
      simp only [valLE]; ring
    cases fuel with
    | zero =>
      rw [hval] at hle
      omega
    | succ fuel =>
      rw [hval]
      have hd : c - 65 < 26 := by omega
      have hmod : ((c - 65) + 26 * valLE cs) % 26 = c - 65 := by
        rw [Nat.add_mul_mod_self_left, Nat.mod_eq_of_lt hd]
      have hdivq : ((c - 65) + 26 * valLE cs) / 26 = valLE cs := by
        rw [Nat.add_mul_div_left _ _ (by omega : 0 < 26),
          Nat.div_eq_of_lt hd]
        omega
      simp only [symbolGoF, hmod, hdivq]
      rw [relicAlphabet_getD (c - 65) hd]
      have hcs : valLE cs ≤ fuel := by
        rw [hval] at hle; omega
      rw [ih fuel (fun c' hc' => hvalid c' (List.mem_cons_of_mem c hc')) hcs]
      congr 1
      omega

theorem fromStrGo_nil (x i : Nat) : fromStrGo [] x i = .ok x := rfl

theorem fromStrGo_cons (c : Nat) (cs : List Nat) (x i : Nat) :
    fromStrGo (c :: cs) x i =
      match if 0 < i then checkedAdd128 x 1 else some x with
      | none => .error .range
      | some x1 =>
        match checkedMul128 x1 26 with
        | none => .error .range
        | some x2 =>
          if 65 ≤ c ∧ c ≤ 90 then
            match checkedAdd128 x2 (c - 65) with
            | none => .error .range
            | some x3 => fromStrGo cs x3 (i + 1)
          else .error (.character c) := rfl

theorem fromStrGo_ok_of : ∀ (s : List Nat) (x i : Nat), 0 < i →
    (∀ c ∈ s, 65 ≤ c ∧ c ≤ 90) → foldVal s x ≤ U128MAX →
    fromStrGo s x i = .ok (foldVal s x) := by
  intro s
  induction s with
  | nil => intro x i _ _ _; rfl
  | cons c cs ih =>
    intro x i hi hvalid hle
    have hc := hvalid c (List.mem_cons_self c cs)
    have hstep : foldVal (c :: cs) x = foldVal cs ((x + 1) * 26 + (c - 65)) :=
      rfl
    rw [hstep] at hle
    have hge := foldVal_ge cs ((x + 1) * 26 + (c - 65))
    have hx1 : x + 1 ≤ U128MAX := by omega
    have hx2 : (x + 1) * 26 ≤ U128MAX := by omega
    have hx3 : (x + 1) * 26 + (c - 65) ≤ U128MAX := by omega
    have e1 : checkedAdd128 x 1 = some (x + 1) := by
      unfold checkedAdd128; rw [if_pos hx1]
    have e2 : checkedMul128 (x + 1) 26 = some ((x + 1) * 26) := by
      unfold checkedMul128; rw [if_pos hx2]
    have e3 : checkedAdd128 ((x + 1) * 26) (c - 65) =
        some ((x + 1) * 26 + (c - 65)) := by
      unfold checkedAdd128; rw [if_pos hx3]
    rw [fromStrGo_cons]
    rw [if_pos hi, e1]
    dsimp only
    rw [e2]
    dsimp only
    rw [if_pos hc, e3]
    dsimp only
    rw [hstep]
    exact ih _ (i + 1) (by omega)
      (fun c' hc' => hvalid c' (List.mem_cons_of_mem c hc')) hle

theorem fromStrGo_ok_inv : ∀ (s : List Nat) (x i y : Nat), x ≤ U128MAX →
    fromStrGo s x i = .ok y →
    (∀ c ∈ s, 65 ≤ c ∧ c ≤ 90) ∧ y ≤ U128MAX ∧
      (0 < i → y = foldVal s x) := by
  intro s
  induction s with
  | nil =>
    intro x i y hx h
    rw [fromStrGo_nil] at h
    simp only [Except.ok.injEq] at h
    subst h
    exact ⟨by simp, hx, fun _ => rfl⟩
  | cons c cs ih =>
    intro x i y hx h
    rw [fromStrGo_cons] at h
    by_cases hi : 0 < i
    · rw [if_pos hi] at h
      by_cases h1 : x + 1 ≤ U128MAX
      · have e1 : checkedAdd128 x 1 = some (x + 1) := by
          unfold checkedAdd128; rw [if_pos h1]
        rw [e1] at h
        dsimp only at h
        by_cases h2 : (x + 1) * 26 ≤ U128MAX
        · have e2 : checkedMul128 (x + 1) 26 = some ((x + 1) * 26) := by
            unfold checkedMul128; rw [if_pos h2]
          rw [e2] at h
          dsimp only at h
          by_cases hc : 65 ≤ c ∧ c ≤ 90
          · rw [if_pos hc] at h
            by_cases h3 : (x + 1) * 26 + (c - 65) ≤ U128MAX
            · have e3 : checkedAdd128 ((x + 1) * 26) (c - 65) =
                  some ((x + 1) * 26 + (c - 65)) := by
                unfold checkedAdd128; rw [if_pos h3]
              rw [e3] at h
              dsimp only at h
              obtain ⟨hvcs, hy, hyval⟩ := ih _ (i + 1) y h3 h
              refine ⟨?_, hy, fun _ => ?_⟩
              · intro c' hc'
                rcases List.mem_cons.mp hc' with rfl | hc'
                · exact hc
                · exact hvcs c' hc'
              · exact hyval (by omega)
            · have e3 : checkedAdd128 ((x + 1) * 26) (c - 65) = none := by
                unfold checkedAdd128; rw [if_neg h3]
              rw [e3] at h
              exact absurd h (by simp)
          · rw [if_neg hc] at h
            exact absurd h (by simp)
        · have e2 : checkedMul128 (x + 1) 26 = none := by
            unfold checkedMul128; rw [if_neg h2]
          rw [e2] at h
          exact absurd h (by simp)
      · have e1 : checkedAdd128 x 1 = none := by
          unfold checkedAdd128; rw [if_neg h1]
        rw [e1] at h
        exact absurd h (by simp)
    · rw [if_neg hi] at h
      dsimp only at h
      by_cases h2 : x * 26 ≤ U128MAX
      · have e2 : checkedMul128 x 26 = some (x * 26) := by
          unfold checkedMul128; rw [if_pos h2]
        rw [e2] at h
        dsimp only at h
        by_cases hc : 65 ≤ c ∧ c ≤ 90
        · rw [if_pos hc] at h
          by_cases h3 : x * 26 + (c - 65) ≤ U128MAX
          · have e3 : checkedAdd128 (x * 26) (c - 65) =
                some (x * 26 + (c - 65)) := by
              unfold checkedAdd128; rw [if_pos h3]
            rw [e3] at h
            dsimp only at h
            obtain ⟨hvcs, hy, _⟩ := ih _ (i + 1) y h3 h
            refine ⟨?_, hy, fun h0 => absurd h0 hi⟩
            intro c' hc'
            rcases List.mem_cons.mp hc' with rfl | hc'
            · exact hc
            · exact hvcs c' hc'
          · have e3 : checkedAdd128 (x * 26) (c - 65) = none := by
              unfold checkedAdd128; rw [if_neg h3]
            rw [e3] at h
            exact absurd h (by simp)
        · rw [if_neg hc] at h
          exact absurd h (by simp)
      · have e2 : checkedMul128 x 26 = none := by
          unfold checkedMul128; rw [if_neg h2]
        rw [e2] at h
        exact absurd h (by simp)

theorem fromStrGo_first (c : Nat) (cs : List Nat) (hc : 65 ≤ c ∧ c ≤ 90) :
    fromStrGo (c :: cs) 0 0 = fromStrGo cs (c - 65) 1 := by
  have e2 : checkedMul128 0 26 = some 0 := by
    unfold checkedMul128 U128MAX
    norm_num
  have e3 : checkedAdd128 0 (c - 65) = some (c - 65) := by
    unfold checkedAdd128 U128MAX
    rw [if_pos (by omega)]
    simp
  rw [fromStrGo_cons]
  rw [if_neg (lt_irrefl 0)]
  dsimp only
  rw [e2]
  dsimp only
  rw [if_pos hc, e3]

/-- C9: the relic name mapping is a bijection between `u128` and the
uppercase `A`–`Z` strings of 1 to 28 characters: every `n ≤ u128::MAX`
displays as such a string whose parse returns exactly `Relic(n)` —
including the special-cased `n = u128::MAX` — and every string of that
shape that parses successfully displays back as itself. -/
theorem c9_relic_name_bijection :
    (∀ n : Nat, n ≤ U128MAX →
      1 ≤ (Relic.display ⟨n⟩).length ∧ (Relic.display ⟨n⟩).length ≤ 28 ∧
      (∀ c ∈ Relic.display ⟨n⟩, 65 ≤ c ∧ c ≤ 90) ∧
      Relic.fromStr (Relic.display ⟨n⟩) = .ok ⟨n⟩) ∧
    (∀ (s : List Nat) (r : Relic), 1 ≤ s.length → s.length ≤ 28 →
      Relic.fromStr s = .ok r → Relic.display r = s) := by
  constructor
  · intro n hn
    by_cases hmax : n = U128MAX
    · subst hmax
      refine ⟨by decide, by decide, by decide, by rfl⟩
    · have hdisp : Relic.display ⟨n⟩ = (symbolGoF (n + 1) (n + 1)).reverse := by
        unfold Relic.display
        rw [if_neg hmax]
      have hval : valLE (symbolGoF (n + 1) (n + 1)) = n + 1 :=
        valLE_symbolGoF _ _ (Nat.le_refl _)
      have hne : symbolGoF (n + 1) (n + 1) ≠ [] := by
        intro h0
        rw [h0] at hval
        simp [valLE] at hval
      have hlen1 : 1 ≤ (Relic.display ⟨n⟩).length := by
        rw [hdisp, List.length_reverse]
        exact List.length_pos.mpr hne
      have hlen28 : (Relic.display ⟨n⟩).length ≤ 28 := by
        rw [hdisp, List.length_reverse]
        by_contra hL
        push_neg at hL
        have hp1 : (26 : Nat) ^ 29 ≤ 26 ^ (symbolGoF (n + 1) (n + 1)).length :=
          Nat.pow_le_pow_right (by norm_num) (by omega)
        have hp2 := pow_le_valLE (symbolGoF (n + 1) (n + 1))
        rw [hval] at hp2
        have hp3 : (26 : Nat) ^ 29 ≤ 25 * U128MAX + 1 := by omega
        exact absurd hp3 (by decide)
      have hmem : ∀ c ∈ Relic.display ⟨n⟩, 65 ≤ c ∧ c ≤ 90 := by
        intro c hc
        rw [hdisp] at hc
        exact symbolGoF_mem _ _ c (List.mem_reverse.mp hc)
      refine ⟨hlen1, hlen28, hmem, ?_⟩
      obtain ⟨c, cs, hcons⟩ :=
        List.exists_cons_of_ne_nil (fun h0 => hne (by
          have := congrArg List.reverse h0
          rwa [List.reverse_reverse] at this))
      have hsym : symbolGoF (n + 1) (n + 1) = (c :: cs).reverse := by
        have := congrArg List.reverse hcons
        rwa [List.reverse_reverse] at this
      have hvalrev : valLE ((c :: cs).reverse) = n + 1 := by
        rw [← hsym]
        exact hval
      have hfold : foldVal cs (c - 65) = n := by
        have := foldVal_cons_valLE c cs
        rw [hvalrev] at this
        omega
      have hc : 65 ≤ c ∧ c ≤ 90 := hmem c (by rw [hdisp, hcons]; simp)
      have hcsv : ∀ c' ∈ cs, 65 ≤ c' ∧ c' ≤ 90 := by
        intro c' hc'
        exact hmem c' (by rw [hdisp, hcons]; simp [hc'])
      have hgo : fromStrGo (c :: cs) 0 0 = .ok n := by
        rw [fromStrGo_first c cs hc, fromStrGo_ok_of cs (c - 65) 1
          Nat.one_pos hcsv (by rw [hfold]; exact hn), hfold]
      rw [hdisp, hcons]
      unfold Relic.fromStr
      rw [hgo]
      rfl
  · intro s r h1 h28 hparse
    obtain ⟨c, cs, rfl⟩ : ∃ c cs, s = c :: cs := by
      cases s with
      | nil => simp at h1
      | cons c cs => exact ⟨c, cs, rfl⟩
    unfold Relic.fromStr at hparse
    cases hgo : fromStrGo (c :: cs) 0 0 with
    | error e =>
      rw [hgo] at hparse
      simp [Except.map] at hparse
    | ok v =>
      rw [hgo] at hparse
      simp only [Except.map, Except.ok.injEq] at hparse
      subst hparse
      have hc : 65 ≤ c ∧ c ≤ 90 := by
        by_contra hcn
        have e2 : checkedMul128 0 26 = some 0 := by
          unfold checkedMul128 U128MAX
          norm_num
        have herr : fromStrGo (c :: cs) 0 0 = .error (.character c) := by
          rw [fromStrGo_cons, if_neg (lt_irrefl 0)]
          dsimp only
          rw [e2]
          dsimp only
          rw [if_neg hcn]
        rw [herr] at hgo
        exact absurd hgo (by simp)
      rw [fromStrGo_first c cs hc] at hgo
      have hcle : c - 65 ≤ U128MAX := by
        have h25 : (25 : Nat) ≤ U128MAX := by decide
        omega
      obtain ⟨hvcs, hv, hval⟩ := fromStrGo_ok_inv cs (c - 65) 1 v hcle hgo
      have hvfold : v = foldVal cs (c - 65) := hval Nat.one_pos
      have hv1 : v + 1 = valLE ((c :: cs).reverse) := by
        rw [hvfold, foldVal_cons_valLE]
      have hvalid_rev : ∀ c' ∈ (c :: cs).reverse, 65 ≤ c' ∧ c' ≤ 90 := by
        intro c' hc'
        rcases List.mem_cons.mp (List.mem_reverse.mp hc') with rfl | hc'
        · exact hc
        · exact hvcs c' hc'
      by_cases hvmax : v = U128MAX
      · have hpow : v + 1 = 2 ^ 128 := by
          rw [hvmax]
          unfold U128MAX
          omega
        have hmaxval : valLE (relicMaxSymbol.reverse) = 2 ^ 128 := by decide
        have ha : symbolGoF (2 ^ 128) (valLE ((c :: cs).reverse)) =
            (c :: cs).reverse :=
          symbolGoF_valLE _ _ hvalid_rev (by rw [← hv1, hpow])
        have hb : symbolGoF (2 ^ 128) (valLE (relicMaxSymbol.reverse)) =
            relicMaxSymbol.reverse :=
          symbolGoF_valLE _ _ (by decide) (by rw [hmaxval])
        rw [← hv1, hpow] at ha
        rw [hmaxval] at hb
        have hrev : (c :: cs).reverse = relicMaxSymbol.reverse := by
          rw [← ha, ← hb]
        have hstr : c :: cs = relicMaxSymbol := by
          have := congrArg List.reverse hrev
          rwa [List.reverse_reverse, List.reverse_reverse] at this
        unfold Relic.display
        rw [if_pos hvmax, hstr]
      · have ha : symbolGoF (v + 1) (valLE ((c :: cs).reverse)) =
            (c :: cs).reverse :=
          symbolGoF_valLE _ _ hvalid_rev (by rw [← hv1])
        rw [← hv1] at ha
        unfold Relic.display
        rw [if_neg hvmax, ha, List.reverse_reverse]

/-- Witness for C9: `Relic(0)` displays as `"A"` and parses back, and
the one-letter string `"B"` parses to `Relic(1)`, which displays back
as `"B"`. -/
theorem c9_relic_name_bijection_witness :
    Relic.fromStr (Relic.display ⟨0⟩) = .ok ⟨0⟩ ∧
    Relic.display ⟨1⟩ = [66] :=
  ⟨(c9_relic_name_bijection.1 0 (by decide)).2.2.2,
    c9_relic_name_bijection.2 [66] ⟨1⟩ (by decide) (by decide) rfl⟩

end Bones
